import Mathlib

/-!
# A shallow embedding of `complex.py` and `htmlmerger.py` (Advestis/htmlmerger)

Python floats are modelled as real numbers (`ℝ`); the spec itself states all
numeric contracts over "real numbers" with explicit tolerance constants, and
every constant appearing in the code (`1e-8`, `1e-15`) is an exact rational.
Python's `None` is modelled by `Option`, and a raised exception by the error
side of `Except`.  `math.sqrt`, `math.acos`, `math.cos`, `math.sin` become
`Real.sqrt`, `Real.arccos`, `Real.cos`, `Real.sin`.  A Python float division
raises `ZeroDivisionError` on a zero denominator, so every division in the
source whose denominator can be zero is guarded explicitly and mapped to the
corresponding error value.  `-0.0` does not exist in `ℝ`, so the getters'
`-0.0 → 0.0` normalisation is the identity here.
-/

/-- The Python exceptions raised by the modelled code. -/
inductive PyErr : Type
  | valueError (msg : String)
  | zeroDivisionError
  | typeError (msg : String)
  deriving DecidableEq, Repr

deriving instance DecidableEq for Except

noncomputable section

/-- `complex.py::compatible_numbers` (threshold is the call-site default
`1e-8` everywhere in the source).  `abs((n1 - n2) / n1)` raises
`ZeroDivisionError` in Python when `n1 == 0` (and the equality test before it
did not fire). -/
def compatible_numbers (n1 n2 threshold : ℝ) : Except PyErr Bool :=
  if n1 = n2 then .ok true
  else if n1 = 0 then .error .zeroDivisionError
  else if |(n1 - n2) / n1| < threshold then .ok true
  else .ok false

/-- The inline zero-clamp `if abs(v) < 1e-15: v = 0.0` both conversion
helpers apply to their outputs. -/
def clampZero (x : ℝ) : ℝ := if |x| < 1e-15 then 0 else x

/-- `complex.py::r_theta_from_ab`.  `a / r` raises `ZeroDivisionError` when
`r == 0` (over `ℝ`: exactly when `a = b = 0`). -/
def r_theta_from_ab (a b : Option ℝ) : Except PyErr (Option ℝ × Option ℝ) :=
  match a, b with
  | some a, some b =>
      let r := Real.sqrt (a ^ 2 + b ^ 2)
      if r = 0 then .error .zeroDivisionError
      else
        let theta0 := if b > 0 then Real.arccos (a / r) else -Real.arccos (a / r)
        .ok (some r, some (clampZero theta0))
  | _, _ => .ok (none, none)

/-- `complex.py::ab_from_r_theta` (total). -/
def ab_from_r_theta (r theta : Option ℝ) : Option ℝ × Option ℝ :=
  match r, theta with
  | some r, some theta =>
      (some (clampZero (r * Real.cos theta)), some (clampZero (r * Real.sin theta)))
  | _, _ => (none, none)

/-- `r = sqrt(a² + b²)` as the code derives it. -/
def derivedR (a b : ℝ) : ℝ := Real.sqrt (a ^ 2 + b ^ 2)

/-- `theta` as the code derives it, before the zero-clamp. -/
def derivedTheta0 (a b : ℝ) : ℝ :=
  if b > 0 then Real.arccos (a / derivedR a b) else -Real.arccos (a / derivedR a b)

/-- `theta` as the code derives (and stores) it. -/
def derivedTheta (a b : ℝ) : ℝ := clampZero (derivedTheta0 a b)

/-- The four name-mangled storage slots `__a/__b/__r/__theta` of a `Complex`
instance.  Each is `None` until assigned (`float(x) if x is not None else
None` in `__init__`). -/
structure PyComplex : Type where
  a : Option ℝ
  b : Option ℝ
  r : Option ℝ
  theta : Option ℝ

/-- Getter `Complex.a`: returns the slot, turning a stored `-0.0` into `0.0`
(a no-op over `ℝ`). -/
def PyComplex.getA (z : PyComplex) : Option ℝ := z.a

/-- Getter `Complex.b`. -/
def PyComplex.getB (z : PyComplex) : Option ℝ := z.b

/-- Getter `Complex.r`. -/
def PyComplex.getR (z : PyComplex) : Option ℝ := z.r

/-- Getter `Complex.theta`. -/
def PyComplex.getTheta (z : PyComplex) : Option ℝ := z.theta

/-- Setter `Complex.a`: store the value, then recompute `__r, __theta` from
the (new) `a` and the current `b`.  The conversion's `ZeroDivisionError`
propagates (in Python it would leave the instance torn; construction never
lets such a state escape). -/
def PyComplex.setA (z : PyComplex) (v : Option ℝ) : Except PyErr PyComplex := do
  let z := { z with a := v }
  let rt ← r_theta_from_ab z.getA z.getB
  return { z with r := rt.1, theta := rt.2 }

/-- Setter `Complex.b`. -/
def PyComplex.setB (z : PyComplex) (v : Option ℝ) : Except PyErr PyComplex := do
  let z := { z with b := v }
  let rt ← r_theta_from_ab z.getA z.getB
  return { z with r := rt.1, theta := rt.2 }

/-- Setter `Complex.r`: store the value, then recompute `__a, __b` from the
(new) `r` and the current `theta`.  No validation: a negative value is stored
as given. -/
def PyComplex.setR (z : PyComplex) (v : Option ℝ) : PyComplex :=
  let z := { z with r := v }
  let ab := ab_from_r_theta z.getR z.getTheta
  { z with a := ab.1, b := ab.2 }

/-- Setter `Complex.theta`. -/
def PyComplex.setTheta (z : PyComplex) (v : Option ℝ) : PyComplex :=
  let z := { z with theta := v }
  let ab := ab_from_r_theta z.getR z.getTheta
  { z with a := ab.1, b := ab.2 }

end

/-!
## Python string primitives

`str.replace` and `str.split` are modelled by fuel-based scanners over
`List Char` (the fuel `length + 1` always suffices, keeping the definitions
structurally recursive and hence evaluable by `decide`).  Both follow
Python's semantics for a non-empty pattern: leftmost, non-overlapping; the
code never calls them with an empty pattern.  `in` is modelled through the
split.  CPython's `float()` accepts `[sign] digits [. digits] [e [sign]
digits]` (plus `inf`/`nan`/underscores, which no textual form of this code
can produce after stripping); on any other input it raises `ValueError`.
Decimal values are read exactly (floats are reals in this model). -/

def replaceFuel : ℕ → List Char → List Char → List Char → List Char
  | 0, s, _, _ => s
  | _ + 1, [], _, _ => []
  | n + 1, c :: rest, pat, rep =>
      if pat ≠ [] ∧ List.take pat.length (c :: rest) = pat then
        rep ++ replaceFuel n (List.drop pat.length (c :: rest)) pat rep
      else
        c :: replaceFuel n rest pat rep

def strReplace (s pat rep : String) : String :=
  ⟨replaceFuel (s.length + 1) s.toList pat.toList rep.toList⟩

def splitFuel : ℕ → List Char → List Char → List Char → List (List Char)
  | 0, s, _, cur => [cur ++ s]
  | _ + 1, [], _, cur => [cur]
  | n + 1, c :: rest, sep, cur =>
      if sep ≠ [] ∧ List.take sep.length (c :: rest) = sep then
        cur :: splitFuel n (List.drop sep.length (c :: rest)) sep []
      else
        splitFuel n rest sep (cur ++ [c])

def strSplitOn (s sep : String) : List String :=
  (splitFuel (s.length + 1) s.toList sep.toList []).map fun l => ⟨l⟩

/-- Python's `sub in s` (for the non-empty separators this code uses). -/
def strContains (s sub : String) : Bool :=
  (strSplitOn s sub).length > 1

/-- The numeric value of a digit run. -/
def digitsVal (l : List Char) : ℕ :=
  l.foldl (fun n c => 10 * n + (c.toNat - 48)) 0

/-- CPython `float(s)` on the decimal grammar, exactly, as a rational
(built with `mkRat` so that concrete parses evaluate by `decide`). -/
def pyFloatQ (s : String) : Except PyErr ℚ :=
  let err : Except PyErr ℚ :=
    .error (.valueError ("could not convert string to float: " ++ s))
  let body : Bool → List Char → Except PyErr ℚ := fun neg cs =>
    let ip := cs.takeWhile Char.isDigit
    let cs := cs.dropWhile Char.isDigit
    let frac : List Char × List Char :=
      match cs with
      | '.' :: t => (t.takeWhile Char.isDigit, t.dropWhile Char.isDigit)
      | _ => ([], cs)
    match frac with
    | (fp, rest) =>
      if ip = [] ∧ fp = [] then err
      else
        let num : ℤ := (digitsVal ip * 10 ^ fp.length + digitsVal fp : ℕ)
        let num : ℤ := if neg then -num else num
        let den : ℕ := 10 ^ fp.length
        match rest with
        | [] => .ok (mkRat num den)
        | e :: t =>
          if e = 'e' ∨ e = 'E' then
            let esplit : Bool × List Char :=
              match t with
              | '-' :: u => (true, u)
              | '+' :: u => (false, u)
              | _ => (false, t)
            match esplit with
            | (eneg, t) =>
              let ed := t.takeWhile Char.isDigit
              let rest2 := t.dropWhile Char.isDigit
              if ed = [] ∨ rest2 ≠ [] then err
              else if eneg then .ok (mkRat num (den * 10 ^ digitsVal ed))
              else .ok (mkRat (num * 10 ^ digitsVal ed) den)
          else err
  match s.toList with
  | '-' :: t => body true t
  | '+' :: t => body false t
  | cs => body false cs

noncomputable section

/-- `float(s)` as a real number. -/
def pyFloat (s : String) : Except PyErr ℝ :=
  match pyFloatQ s with
  | .ok q => .ok (q : ℝ)
  | .error e => .error e

/-- `Complex._guess_repr`: decide which representation the stored slots
describe.  With both pairs present, the polar pair derived from `(a, b)` is
checked (short-circuit: the `theta` comparison only runs when the `r`
comparison succeeded) against the stored one and nothing is overwritten;
with only one pair present the other is recomputed through the setters. -/
def PyComplex.guessRepr (st : PyComplex) : Except PyErr PyComplex :=
  let cartesian := st.a.isSome && st.b.isSome
  let trigo := st.r.isSome && st.theta.isSome
  if !cartesian && !trigo then
    .error (.valueError "Not enough information provided at Complex number creation.")
  else if cartesian then do
    let rt ← r_theta_from_ab st.a st.b
    if trigo then
      match rt.1, rt.2, st.r, st.theta with
      | some rv, some tv, some r0, some t0 => do
          let c1 ← compatible_numbers rv r0 1e-8
          if c1 then do
            let c2 ← compatible_numbers tv t0 1e-8
            if c2 then return st
            else .error (.valueError
              "You specified both cartesian and trigo representations but the values are not compatible")
          else .error (.valueError
            "You specified both cartesian and trigo representations but the values are not compatible")
      | _, _, _, _ =>
          -- never reached: `cartesian` makes the derived pair complete and
          -- `trigo` makes the stored polar pair complete
          .error (.valueError "unreachable")
    else do
      let st ← st.setA st.a
      st.setB st.b
  else do
    let st := st.setR st.r
    return st.setTheta st.theta

/-- `Complex._guess_repr_from_string`: strip `(`, `)`, `*`, `x` and spaces,
then dispatch on the surviving text.  List indexing `split(..)[k]` is
modelled by `getD k ""` (on every path the guard guarantees the element
exists, except the quirky `sn` arm where Python would raise `IndexError`
and this model raises `ValueError` through `float("")` — an error either
way). -/
def PyComplex.guessReprFromString (st : PyComplex) (s : String) : Except PyErr PyComplex :=
  let s := strReplace (strReplace (strReplace (strReplace (strReplace s "(" "") ")" "") "*" "") "x" "") " " ""
  if strContains s "e^" || strContains s "exp" then
    let s := strReplace s "i" ""
    if strContains s "e^" then do
      let rv ← pyFloat ((strSplitOn s "e^").getD 0 "")
      let st := st.setR (some rv)
      let tv ← pyFloat ((strSplitOn s "e^").getD 1 "")
      return st.setTheta (some tv)
    else do
      let rv ← pyFloat ((strSplitOn s "exp").getD 0 "")
      let st := st.setR (some rv)
      let tv ← pyFloat ((strSplitOn s "exp").getD 1 "")
      return st.setTheta (some tv)
  else if strContains s "cos" || strContains s "sin" then
    let ss := strReplace ((strSplitOn s "+").getD 0 "") "i" ""
    if strContains ss "cos" then do
      let rv ← pyFloat ((strSplitOn ss "cos").getD 0 "")
      let st := st.setR (some rv)
      let tv ← pyFloat ((strSplitOn ss "cos").getD 1 "")
      return st.setTheta (some tv)
    else do
      let rv ← pyFloat ((strSplitOn ss "sn").getD 0 "")
      let st := st.setR (some rv)
      let tv ← pyFloat ((strSplitOn ss "sn").getD 1 "")
      return st.setTheta (some tv)
  else
    if !strContains s "+" then
      if strContains s "i" then do
        let st ← st.setA (some 0)
        let bv ← pyFloat (strReplace s "i" "")
        st.setB (some bv)
      else do
        let av ← pyFloat s
        let st ← st.setA (some av)
        st.setB (some 0)
    else do
      let av ← pyFloat (strReplace ((strSplitOn s "+").getD 0 "") " " "")
      let st ← st.setA (some av)
      let bv ← pyFloat (strReplace (strReplace ((strSplitOn s "+").getD 1 "") " " "") "i" "")
      st.setB (some bv)

/-- `Complex.__init__`.  The first positional argument is either a float or
another `Complex` (then it becomes the copy source `z` and `a, b, r, theta`
are all reset to `None`, skipping every later check on them).  Then the
negative-norm check, then raw storage of the four slots (`float` is the
identity here), then: copy path (four setter calls reading the source's
getters), string path (`elif s:` — only a non-empty string is truthy), or
`_guess_repr`. -/
def complexInit (aArg : Option (ℝ ⊕ PyComplex)) (bArg rArg thetaArg : Option ℝ)
    (sArg : Option String) (zArg : Option PyComplex) : Except PyErr PyComplex :=
  let p : Option ℝ × Option ℝ × Option ℝ × Option ℝ × Option PyComplex :=
    match aArg with
    | some (.inr w) => (none, none, none, none, some w)
    | some (.inl x) => (some x, bArg, rArg, thetaArg, zArg)
    | none => (none, bArg, rArg, thetaArg, zArg)
  match p with
  | (a, b, r, theta, z) =>
    let neg : Bool := match r with
      | some rv => decide (rv < 0)
      | none => false
    if neg then .error (.valueError "A complex number's norm cannot be negative!")
    else
      let st : PyComplex := ⟨a, b, r, theta⟩
      match z with
      | some w => do
          let st ← st.setA w.getA
          let st ← st.setB w.getB
          let st := st.setR w.getR
          return st.setTheta w.getTheta
      | none =>
        match sArg with
        | some s => if s ≠ "" then st.guessReprFromString s else st.guessRepr
        | none => st.guessRepr

/-- `Complex(a, b)` — the Cartesian constructor path. -/
def mkCartesian (a b : ℝ) : Except PyErr PyComplex :=
  complexInit (some (.inl a)) (some b) none none none none

/-- `Complex(r=…, theta=…)` — the polar constructor path. -/
def mkPolar (r theta : ℝ) : Except PyErr PyComplex :=
  complexInit none none (some r) (some theta) none none

/-- `Complex(a, b, r, theta)` — both pairs supplied. -/
def mkBoth (a b r theta : ℝ) : Except PyErr PyComplex :=
  complexInit (some (.inl a)) (some b) (some r) (some theta) none none

/-- `Complex(s=…)` — the string constructor path. -/
def mkString (s : String) : Except PyErr PyComplex :=
  complexInit none none none none (some s) none

/-- `Complex(z)` — the copy constructor path. -/
def mkCopy (w : PyComplex) : Except PyErr PyComplex :=
  complexInit (some (.inr w)) none none none none none

/-!
## Arithmetic operators

Every binary operator accepts another `Complex`, a real scalar, or a textual
form (`isinstance(other, str)` coerces it through `Complex(s=other)` first).
Each starts with `new = Complex(self)` and then mutates `new` through the
four setters.  Arithmetic on a `None` slot would raise `TypeError` in
Python; a fully constructed instance has no `None` slot, so that branch is
unreachable from constructed values. -/

/-- The right operand of a binary operator. -/
inductive Operand : Type
  | scalar (x : ℝ)
  | cpx (w : PyComplex)
  | strForm (s : String)

/-- `if isinstance(other, str): other = Complex(s=other)` and the
`isinstance(other, Complex)` dispatch that follows. -/
def coerceOperand (o : Operand) : Except PyErr (PyComplex ⊕ ℝ) :=
  match o with
  | .strForm s => (mkString s).map .inl
  | .cpx w => .ok (.inl w)
  | .scalar x => .ok (.inr x)

/-- A Python binary float operation on possibly-`None` operands. -/
def pyBin (f : ℝ → ℝ → ℝ) (x y : Option ℝ) : Except PyErr ℝ :=
  match x, y with
  | some a, some b => .ok (f a b)
  | _, _ => .error (.typeError "unsupported operand type with NoneType")

/-- Python float division: `ZeroDivisionError` on a zero denominator. -/
def pyDivOp (x y : Option ℝ) : Except PyErr ℝ :=
  match x, y with
  | some a, some b =>
      if b = 0 then .error .zeroDivisionError else .ok (a / b)
  | _, _ => .error (.typeError "unsupported operand type with NoneType")

/-- Python float `**` with a real exponent: `0.0 ** negative` raises
`ZeroDivisionError`; a non-negative base follows `Real.rpow` exactly.  (A
negative base with a non-integral exponent returns a Python `complex`,
which could not feed the real-valued setters; theorems about `**` therefore
assume a non-negative base.) -/
def pyPowOp (x : Option ℝ) (n : ℝ) : Except PyErr ℝ :=
  match x with
  | some a =>
      if a = 0 ∧ n < 0 then .error .zeroDivisionError else .ok (a ^ n)
  | none => .error (.typeError "unsupported operand type with NoneType")

/-- `Complex.__add__`: Cartesian, field-wise; a scalar adds to `a` only. -/
def PyComplex.addC (z : PyComplex) (o : Operand) : Except PyErr PyComplex := do
  let new ← mkCopy z
  match ← coerceOperand o with
  | .inl w => do
      let v ← pyBin (· + ·) new.getA w.getA
      let new ← new.setA (some v)
      let v2 ← pyBin (· + ·) new.getB w.getB
      new.setB (some v2)
  | .inr x => do
      let v ← pyBin (· + ·) new.getA (some x)
      new.setA (some v)

/-- `Complex.__sub__`. -/
def PyComplex.subC (z : PyComplex) (o : Operand) : Except PyErr PyComplex := do
  let new ← mkCopy z
  match ← coerceOperand o with
  | .inl w => do
      let v ← pyBin (· - ·) new.getA w.getA
      let new ← new.setA (some v)
      let v2 ← pyBin (· - ·) new.getB w.getB
      new.setB (some v2)
  | .inr x => do
      let v ← pyBin (· - ·) new.getA (some x)
      new.setA (some v)

/-- `Complex.__mul__`: polar — multiply moduli, add angles; a scalar
multiplies `r` only. -/
def PyComplex.mulC (z : PyComplex) (o : Operand) : Except PyErr PyComplex := do
  let new ← mkCopy z
  match ← coerceOperand o with
  | .inl w => do
      let v ← pyBin (· * ·) new.getR w.getR
      let new := new.setR (some v)
      let v2 ← pyBin (· + ·) new.getTheta w.getTheta
      return new.setTheta (some v2)
  | .inr x => do
      let v ← pyBin (· * ·) new.getR (some x)
      return new.setR (some v)

/-- `Complex.__truediv__`: polar — divide moduli, subtract angles; a scalar
divides `r` only. -/
def PyComplex.divC (z : PyComplex) (o : Operand) : Except PyErr PyComplex := do
  let new ← mkCopy z
  match ← coerceOperand o with
  | .inl w => do
      let v ← pyDivOp new.getR w.getR
      let new := new.setR (some v)
      let v2 ← pyBin (· - ·) new.getTheta w.getTheta
      return new.setTheta (some v2)
  | .inr x => do
      let v ← pyDivOp new.getR (some x)
      return new.setR (some v)

/-- The outcome of `__pow__`: a value, the `NotImplemented` sentinel (a
distinguished non-exception signal), or a raised exception. -/
inductive ArithResult : Type
  | val (z : PyComplex)
  | notImplemented
  | exn (e : PyErr)

/-- `Complex.__pow__`: `new = Complex(self)` first, then `NotImplemented`
for a `Complex` or string exponent, else `r ** n` and `theta * n`. -/
def PyComplex.powC (z : PyComplex) (o : Operand) : ArithResult :=
  match mkCopy z with
  | .error e => .exn e
  | .ok new =>
    match o with
    | .strForm _ => .notImplemented
    | .cpx _ => .notImplemented
    | .scalar x =>
      match pyPowOp new.getR x with
      | .error e => .exn e
      | .ok rv =>
        let new := new.setR (some rv)
        match pyBin (· * ·) new.getTheta (some x) with
        | .error e => .exn e
        | .ok tv => .val (new.setTheta (some tv))

/-- The `conjugate` property (its `repres` parameter is unreachable through
the property protocol, so the default `"cartesian"` branch is the code):
`Complex(self.a, -self.b)`. -/
def PyComplex.conjugateC (z : PyComplex) : Except PyErr PyComplex :=
  match z.getB with
  | some b => complexInit (z.getA.map .inl) (some (-b)) none none none none
  | none => .error (.typeError "bad operand type for unary -: NoneType")

/-- `Complex.__radd__`: `return self + other`. -/
def PyComplex.raddC (z : PyComplex) (o : Operand) : Except PyErr PyComplex :=
  z.addC o

/-- `Complex.__rsub__`: `return self - other` — as written in the source
(the operands are NOT swapped). -/
def PyComplex.rsubC (z : PyComplex) (o : Operand) : Except PyErr PyComplex :=
  z.subC o

/-- `Complex.__rmul__`: `return self * other`. -/
def PyComplex.rmulC (z : PyComplex) (o : Operand) : Except PyErr PyComplex :=
  z.mulC o

/-- `Complex.__rtruediv__`: `return self.conjugate * other / self.mod ** 2`
(`self.mod` is `self.r`; `** 2` is an exact integer power). -/
def PyComplex.rdivC (z : PyComplex) (o : Operand) : Except PyErr PyComplex := do
  let cj ← z.conjugateC
  let prod ← cj.mulC o
  match z.getR with
  | some m => prod.divC (.scalar (m ^ 2))
  | none => .error (.typeError "unsupported operand type with NoneType")

/-- `Complex.__eq__` against another instance: Cartesian pairs equal OR
polar pairs equal (the getters normalise `-0.0`, a no-op over `ℝ`). -/
def PyComplex.eqCx (z w : PyComplex) : Bool :=
  if z.getA = w.getA ∧ z.getB = w.getB then true
  else if z.getR = w.getR ∧ z.getTheta = w.getTheta then true
  else false

/-- `Complex.__eq__`: a string operand is parsed first; a non-`Complex`
operand is compared against `self.a` alone (`None == x` is `False`). -/
def PyComplex.eqC (z : PyComplex) (o : Operand) : Except PyErr Bool :=
  match o with
  | .strForm s => (mkString s).map fun w => z.eqCx w
  | .cpx w => .ok (z.eqCx w)
  | .scalar x => .ok (decide (z.getA = some x))

/-- `Complex.__ne__`: `True` iff `__eq__` is not. -/
def PyComplex.neC (z : PyComplex) (o : Operand) : Except PyErr Bool :=
  (z.eqC o).map fun b => !b

/-!
## Object identity (heap model)

Python objects are references into a heap; `__pos__` returns `self` (the
same reference), while every binary operator starts with `new =
Complex(self)`, a fresh allocation.  The heap is a list of instance states,
a reference an index into it; allocation appends. -/

abbrev Heap : Type := List PyComplex

def emptyPyComplex : PyComplex := ⟨none, none, none, none⟩

def heapGet (h : Heap) (r : ℕ) : PyComplex := h.getD r emptyPyComplex

def heapAlloc (h : Heap) (z : PyComplex) : Heap × ℕ := (h ++ [z], h.length)

/-- `Complex.__pos__`: `return self` — the same reference, no allocation,
no mutation. -/
def heapPos (h : Heap) (r : ℕ) : Heap × ℕ := (h, r)

/-- The `r` setter applied through a reference: mutates the referenced cell
in place. -/
def heapSetR (h : Heap) (r : ℕ) (v : Option ℝ) : Heap :=
  h.set r ((heapGet h r).setR v)

/-- A binary operator applied through a reference: its `new = Complex(self)`
allocates a fresh cell which its setters then mutate; the net heap effect is
one appended cell holding the operator's value. -/
def heapBinOp (f : PyComplex → Operand → Except PyErr PyComplex)
    (h : Heap) (r : ℕ) (o : Operand) : Except PyErr (Heap × ℕ) :=
  match f (heapGet h r) o with
  | .ok z => .ok (heapAlloc h z)
  | .error e => .error e

def heapAdd (h : Heap) (r : ℕ) (o : Operand) : Except PyErr (Heap × ℕ) :=
  heapBinOp PyComplex.addC h r o

def heapSub (h : Heap) (r : ℕ) (o : Operand) : Except PyErr (Heap × ℕ) :=
  heapBinOp PyComplex.subC h r o

def heapMul (h : Heap) (r : ℕ) (o : Operand) : Except PyErr (Heap × ℕ) :=
  heapBinOp PyComplex.mulC h r o

def heapDiv (h : Heap) (r : ℕ) (o : Operand) : Except PyErr (Heap × ℕ) :=
  heapBinOp PyComplex.divC h r o

/-- `__pow__` through a reference, in its value-returning case. -/
def heapPow (h : Heap) (r : ℕ) (o : Operand) : Option (Heap × ℕ) :=
  match (heapGet h r).powC o with
  | .val z => some (heapAlloc h z)
  | _ => none

/-!
## Reachable instance states

A state is reachable when a successful construction produces it or a
successful setter call maps one reachable state to it.  A copy construction
(first positional argument a `Complex`, or `z=` argument) copies from a
reachable source.  A setter that raises leaves a torn state behind in
Python; such states are not produced here (the relation follows successful
calls). -/

inductive Reachable : PyComplex → Prop where
  | base (aArg bArg rArg thetaArg : Option ℝ) (sArg : Option String) (z : PyComplex) :
      complexInit (aArg.map .inl) bArg rArg thetaArg sArg none = .ok z → Reachable z
  | copyA (w : PyComplex) (bArg rArg thetaArg : Option ℝ) (sArg : Option String)
      (zArg : Option PyComplex) (z : PyComplex) :
      Reachable w → complexInit (some (.inr w)) bArg rArg thetaArg sArg zArg = .ok z →
      Reachable z
  | copyZ (aArg bArg rArg thetaArg : Option ℝ) (sArg : Option String) (w z : PyComplex) :
      Reachable w → complexInit (aArg.map .inl) bArg rArg thetaArg sArg (some w) = .ok z →
      Reachable z
  | stepA (z z' : PyComplex) (v : ℝ) : Reachable z → z.setA (some v) = .ok z' → Reachable z'
  | stepB (z z' : PyComplex) (v : ℝ) : Reachable z → z.setB (some v) = .ok z' → Reachable z'
  | stepR (z : PyComplex) (v : ℝ) : Reachable z → Reachable (z.setR (some v))
  | stepTheta (z : PyComplex) (v : ℝ) : Reachable z → Reachable (z.setTheta (some v))

end

/-!
## Basic inversion and evaluation lemmas -/

theorem except_bind_ok {α β : Type} (x : Except PyErr α) (f : α → Except PyErr β) (b : β) :
    (x >>= f) = .ok b ↔ ∃ a, x = .ok a ∧ f a = .ok b := by
  cases x <;> simp [Bind.bind, Except.bind]

theorem clampZero_of_ge (x : ℝ) (h : 1e-15 ≤ |x|) : clampZero x = x := by
  simp only [clampZero, if_neg (not_lt.mpr h)]

theorem clampZero_zero : clampZero 0 = 0 := by
  simp [clampZero]

theorem sq_add_sq_pos_of_ne (a b : ℝ) (h : ¬(a = 0 ∧ b = 0)) : 0 < a ^ 2 + b ^ 2 := by
  rcases not_and_or.mp h with ha | hb
  · have : 0 < a ^ 2 := by positivity
    nlinarith [sq_nonneg b]
  · have : 0 < b ^ 2 := by positivity
    nlinarith [sq_nonneg a]

theorem derivedR_pos (a b : ℝ) (h : ¬(a = 0 ∧ b = 0)) : 0 < derivedR a b :=
  Real.sqrt_pos.mpr (sq_add_sq_pos_of_ne a b h)

theorem derivedR_nonneg (a b : ℝ) : 0 ≤ derivedR a b := Real.sqrt_nonneg _

theorem r_theta_from_ab_some (a b : ℝ) (h : ¬(a = 0 ∧ b = 0)) :
    r_theta_from_ab (some a) (some b) = .ok (some (derivedR a b), some (derivedTheta a b)) := by
  have hr := (derivedR_pos a b h).ne'
  simp only [r_theta_from_ab, derivedR] at hr ⊢
  rw [if_neg hr]
  rfl

theorem r_theta_from_ab_zero : r_theta_from_ab (some 0) (some 0) = .error .zeroDivisionError := by
  have : Real.sqrt ((0 : ℝ) ^ 2 + 0 ^ 2) = 0 := by norm_num
  simp [r_theta_from_ab, this]

theorem r_theta_from_ab_ok_inv (a b : ℝ) (p : Option ℝ × Option ℝ)
    (h : r_theta_from_ab (some a) (some b) = .ok p) :
    ¬(a = 0 ∧ b = 0) ∧ p = (some (derivedR a b), some (derivedTheta a b)) := by
  have hne : ¬(a = 0 ∧ b = 0) := by
    rintro ⟨rfl, rfl⟩
    rw [r_theta_from_ab_zero] at h
    exact Except.noConfusion h
  refine ⟨hne, ?_⟩
  rw [r_theta_from_ab_some a b hne] at h
  exact (Except.ok.injEq _ _ ▸ h.symm)

theorem ab_from_r_theta_some (r t : ℝ) :
    ab_from_r_theta (some r) (some t) =
      (some (clampZero (r * Real.cos t)), some (clampZero (r * Real.sin t))) := rfl

theorem setA_ok_iff (z z' : PyComplex) (v : Option ℝ) :
    z.setA v = .ok z' ↔
      ∃ p, r_theta_from_ab v z.b = .ok p ∧ z' = ⟨v, z.b, p.1, p.2⟩ := by
  cases h : r_theta_from_ab v z.b <;>
    simp [PyComplex.setA, PyComplex.getA, PyComplex.getB, h, Bind.bind, Except.bind,
      pure, Except.pure, eq_comm]

theorem setB_ok_iff (z z' : PyComplex) (v : Option ℝ) :
    z.setB v = .ok z' ↔
      ∃ p, r_theta_from_ab z.a v = .ok p ∧ z' = ⟨z.a, v, p.1, p.2⟩ := by
  cases h : r_theta_from_ab z.a v <;>
    simp [PyComplex.setB, PyComplex.getA, PyComplex.getB, h, Bind.bind, Except.bind,
      pure, Except.pure, eq_comm]

theorem setR_eq (z : PyComplex) (v : Option ℝ) :
    z.setR v = ⟨(ab_from_r_theta v z.theta).1, (ab_from_r_theta v z.theta).2, v, z.theta⟩ := rfl

theorem setTheta_eq (z : PyComplex) (v : Option ℝ) :
    z.setTheta v = ⟨(ab_from_r_theta z.r v).1, (ab_from_r_theta z.r v).2, z.r, v⟩ := rfl

/-!
## The representation invariant -/

/-- After a successful construction every slot holds a value. -/
def allSome (z : PyComplex) : Prop :=
  z.a.isSome ∧ z.b.isSome ∧ z.r.isSome ∧ z.theta.isSome

/-- What the code actually maintains: either the polar pair is exactly the
conversion image of the Cartesian pair (after an `a`/`b` setter or a
Cartesian construction), or the Cartesian pair is exactly the conversion
image of the polar pair (after an `r`/`theta` setter or a polar/string/copy
construction), or the instance came from a both-pairs construction and the
stored polar pair was validated componentwise against the derived one by
`compatible_numbers`. -/
def RepOk (z : PyComplex) : Prop :=
  r_theta_from_ab z.a z.b = .ok (z.r, z.theta)
  ∨ ab_from_r_theta z.r z.theta = (z.a, z.b)
  ∨ (∃ a b r0 t0, z.a = some a ∧ z.b = some b ∧ z.r = some r0 ∧ z.theta = some t0 ∧
      compatible_numbers (derivedR a b) r0 1e-8 = .ok true ∧
      compatible_numbers (derivedTheta a b) t0 1e-8 = .ok true)

/-- Every stored modulus value is non-negative. -/
def rNonneg (z : PyComplex) : Prop := ∀ rv, z.r = some rv → 0 ≤ rv

theorem guessRepr_ok_inv (st z : PyComplex) (h : st.guessRepr = .ok z) :
    allSome z ∧ RepOk z := by
  rcases st with ⟨oa, ob, or, ot⟩
  cases oa with
  | none =>
    cases or with
    | none => simp [PyComplex.guessRepr] at h
    | some r0 =>
      cases ot with
      | none => simp [PyComplex.guessRepr] at h
      | some t0 =>
        -- trigo only (or cartesian incomplete): set r then theta
        simp only [PyComplex.guessRepr, Option.isSome_none, Option.isSome_some,
          Bool.false_and, Bool.and_self, Bool.not_false, Bool.not_true, Bool.and_false,
          Bool.false_eq_true, if_false, if_true, Bool.and_true, Bool.true_and,
          pure, Except.pure] at h
        cases h
        constructor
        · simp [setR_eq, setTheta_eq, ab_from_r_theta_some, allSome]
        · right; left
          simp [setR_eq, setTheta_eq]
  | some a0 =>
    cases ob with
    | none =>
      cases or with
      | none => simp [PyComplex.guessRepr] at h
      | some r0 =>
        cases ot with
        | none => simp [PyComplex.guessRepr] at h
        | some t0 =>
          simp only [PyComplex.guessRepr, Option.isSome_none, Option.isSome_some,
            Bool.false_and, Bool.and_self, Bool.not_false, Bool.not_true, Bool.and_false,
            Bool.false_eq_true, if_false, if_true, Bool.and_true, Bool.true_and,
            pure, Except.pure] at h
          cases h
          constructor
          · simp [setR_eq, setTheta_eq, ab_from_r_theta_some, allSome]
          · right; left
            simp [setR_eq, setTheta_eq]
    | some b0 =>
      by_cases htr : (or.isSome && ot.isSome) = true
      · -- both pairs: validate, store nothing
        rcases Option.isSome_iff_exists.mp (Bool.and_elim_left htr) with ⟨r0, rfl⟩
        rcases Option.isSome_iff_exists.mp (Bool.and_elim_right htr) with ⟨t0, rfl⟩
        simp only [PyComplex.guessRepr, Option.isSome_some, Bool.and_self, Bool.not_true,
          Bool.false_and, Bool.false_eq_true, if_false, if_true, Bind.bind] at h
        rcases hrt : r_theta_from_ab (some a0) (some b0) with e | p
        · rw [hrt] at h; exact absurd h (by simp [Except.bind])
        · rw [hrt] at h
          rcases r_theta_from_ab_ok_inv a0 b0 p hrt with ⟨hne, rfl⟩
          simp only [Except.bind] at h
          rcases hc1 : compatible_numbers (derivedR a0 b0) r0 1e-8 with e | c1
          · rw [hc1] at h; exact absurd h (by simp [Except.bind])
          · rw [hc1] at h
            simp only [Except.bind] at h
            cases c1 with
            | false => simp at h
            | true =>
              simp only [if_true] at h
              rcases hc2 : compatible_numbers (derivedTheta a0 b0) t0 1e-8 with e | c2
              · rw [hc2] at h; exact absurd h (by simp [Except.bind])
              · rw [hc2] at h
                simp only [Except.bind] at h
                cases c2 with
                | false => simp at h
                | true =>
                  simp only [if_true, pure, Except.pure, Except.ok.injEq] at h
                  subst h
                  refine ⟨⟨rfl, rfl, rfl, rfl⟩, .inr (.inr ⟨a0, b0, r0, t0, rfl, rfl, rfl, rfl, hc1, hc2⟩)⟩
      · -- cartesian only: set a then b
        simp only [PyComplex.guessRepr, Option.isSome_some, Bool.and_self, Bool.not_true,
          Bool.false_and, Bool.false_eq_true, if_false, if_true, htr, Bool.not_eq_true',
          Bool.and_true, Bool.true_and] at h
        rcases (except_bind_ok _ _ _).mp h with ⟨rt, hrt, h₂⟩
        rcases (except_bind_ok _ _ _).mp h₂ with ⟨z₁, h₁, h₃⟩
        rcases (setA_ok_iff _ _ _).mp h₁ with ⟨p, hp, rfl⟩
        rcases (setB_ok_iff _ _ _).mp h₃ with ⟨q, hq, rfl⟩
        simp only at hp hq
        rcases r_theta_from_ab_ok_inv a0 b0 q hq with ⟨hne, rfl⟩
        exact ⟨⟨rfl, rfl, rfl, rfl⟩, .inl (by simpa using hq)⟩

theorem polar_leaf_inv (st : PyComplex) (rv tv : ℝ) :
    allSome ((st.setR (some rv)).setTheta (some tv)) ∧
      RepOk ((st.setR (some rv)).setTheta (some tv)) := by
  constructor
  · simp [setR_eq, setTheta_eq, ab_from_r_theta_some, allSome]
  · right; left
    simp [setR_eq, setTheta_eq]

theorem cartesian_chain_inv (st z₁ z : PyComplex) (a b : ℝ)
    (h₁ : st.setA (some a) = .ok z₁) (h₂ : z₁.setB (some b) = .ok z) :
    allSome z ∧ RepOk z := by
  rcases (setA_ok_iff _ _ _).mp h₁ with ⟨p, hp, rfl⟩
  rcases (setB_ok_iff _ _ _).mp h₂ with ⟨q, hq, rfl⟩
  simp only at hq
  rcases r_theta_from_ab_ok_inv a b q hq with ⟨hne, rfl⟩
  exact ⟨⟨rfl, rfl, rfl, rfl⟩, .inl (by simpa using hq)⟩

theorem guessReprFromString_ok_inv (st : PyComplex) (s : String) (z : PyComplex)
    (h : st.guessReprFromString s = .ok z) : allSome z ∧ RepOk z := by
  unfold PyComplex.guessReprFromString at h
  dsimp only at h
  split at h
  · split at h
    all_goals
      rcases (except_bind_ok _ _ _).mp h with ⟨rv, hrv, h₂⟩
      rcases (except_bind_ok _ _ _).mp h₂ with ⟨tv, htv, h₃⟩
      simp only [pure, Except.pure, Except.ok.injEq] at h₃
      subst h₃
      exact polar_leaf_inv _ _ _
  · split at h
    · split at h
      all_goals
        rcases (except_bind_ok _ _ _).mp h with ⟨rv, hrv, h₂⟩
        rcases (except_bind_ok _ _ _).mp h₂ with ⟨tv, htv, h₃⟩
        simp only [pure, Except.pure, Except.ok.injEq] at h₃
        subst h₃
        exact polar_leaf_inv _ _ _
    · split at h
      · split at h
        · rcases (except_bind_ok _ _ _).mp h with ⟨z₁, h₁, h₂⟩
          rcases (except_bind_ok _ _ _).mp h₂ with ⟨bv, hbv, h₃⟩
          exact cartesian_chain_inv _ _ _ _ _ h₁ h₃
        · rcases (except_bind_ok _ _ _).mp h with ⟨av, hav, h₂⟩
          rcases (except_bind_ok _ _ _).mp h₂ with ⟨z₁, h₁, h₃⟩
          exact cartesian_chain_inv _ _ _ _ _ h₁ h₃
      · rcases (except_bind_ok _ _ _).mp h with ⟨av, hav, h₂⟩
        rcases (except_bind_ok _ _ _).mp h₂ with ⟨z₁, h₁, h₃⟩
        rcases (except_bind_ok _ _ _).mp h₃ with ⟨bv, hbv, h₄⟩
        exact cartesian_chain_inv _ _ _ _ _ h₁ h₄

theorem copy_chain_inv (st₀ w z : PyComplex) (hw : allSome w)
    (h : (st₀.setA w.getA >>= fun st =>
          st.setB w.getB >>= fun st =>
          pure ((st.setR w.getR).setTheta w.getTheta)) = .ok z) :
    allSome z ∧ RepOk z := by
  rcases hw with ⟨-, -, hr, ht⟩
  rcases Option.isSome_iff_exists.mp hr with ⟨rv, hrv⟩
  rcases Option.isSome_iff_exists.mp ht with ⟨tv, htv⟩
  rcases (except_bind_ok _ _ _).mp h with ⟨z₁, h₁, h₂⟩
  rcases (except_bind_ok _ _ _).mp h₂ with ⟨z₂, h₃, h₄⟩
  simp only [pure, Except.pure, Except.ok.injEq] at h₄
  subst h₄
  rw [show w.getR = some rv from hrv, show w.getTheta = some tv from htv]
  exact polar_leaf_inv _ _ _

theorem complexInit_ok_inv (aArg : Option (ℝ ⊕ PyComplex)) (bArg rArg thetaArg : Option ℝ)
    (sArg : Option String) (zArg : Option PyComplex) (z : PyComplex)
    (hsrc : ∀ w, aArg = some (.inr w) → allSome w)
    (hzsrc : ∀ w, zArg = some w → (∀ u, aArg ≠ some (.inr u)) → allSome w)
    (h : complexInit aArg bArg rArg thetaArg sArg zArg = .ok z) :
    allSome z ∧ RepOk z := by
  unfold complexInit at h
  cases aArg with
  | none =>
    dsimp only at h
    split at h
    · exact absurd h (by simp)
    · cases zArg with
      | some w =>
        dsimp only at h
        exact copy_chain_inv _ w z (hzsrc w rfl (by simp)) h
      | none =>
        cases sArg with
        | some s =>
          dsimp only at h
          split at h
          · exact guessReprFromString_ok_inv _ _ _ h
          · exact guessRepr_ok_inv _ _ h
        | none =>
          dsimp only at h
          exact guessRepr_ok_inv _ _ h
  | some x =>
    cases x with
    | inl a =>
      dsimp only at h
      split at h
      · exact absurd h (by simp)
      · cases zArg with
        | some w =>
          dsimp only at h
          exact copy_chain_inv _ w z (hzsrc w rfl (by simp)) h
        | none =>
          cases sArg with
          | some s =>
            dsimp only at h
            split at h
            · exact guessReprFromString_ok_inv _ _ _ h
            · exact guessRepr_ok_inv _ _ h
          | none =>
            dsimp only at h
            exact guessRepr_ok_inv _ _ h
    | inr w =>
      dsimp only at h
      split at h
      · exact absurd h (by simp)
      · exact copy_chain_inv _ w z (hsrc w rfl) h

/-- The representation invariant: every reachable instance has all four
slots filled, and its two stored pairs are related exactly as the code
computes them. -/
theorem reachable_inv (z : PyComplex) (h : Reachable z) : allSome z ∧ RepOk z := by
  induction h with
  | base a b r t s z hz =>
      refine complexInit_ok_inv _ _ _ _ _ _ _ ?_ ?_ hz
      · rintro w hw; cases a <;> simp at hw
      · rintro w hw _; exact absurd hw (by simp)
  | copyA w b r t s zo z hw hz ih =>
      refine complexInit_ok_inv _ _ _ _ _ _ _ ?_ ?_ hz
      · rintro w' hw'
        simp only [Option.some.injEq, Sum.inr.injEq] at hw'
        exact hw' ▸ ih.1
      · rintro w' hw' hne
        exact absurd rfl (hne w)
  | copyZ a b r t s w z hw hz ih =>
      refine complexInit_ok_inv _ _ _ _ _ _ _ ?_ ?_ hz
      · rintro w' hw'; cases a <;> simp at hw'
      · rintro w' hw' _
        simp only [Option.some.injEq] at hw'
        exact hw' ▸ ih.1
  | stepA z z' v hz hs ih =>
      rcases ih with ⟨⟨-, hb, -, -⟩, -⟩
      rcases Option.isSome_iff_exists.mp hb with ⟨bv, hbv⟩
      rcases (setA_ok_iff _ _ _).mp hs with ⟨p, hp, rfl⟩
      rw [hbv] at hp
      rcases r_theta_from_ab_ok_inv v bv p hp with ⟨-, rfl⟩
      refine ⟨⟨rfl, by simp [hbv], rfl, rfl⟩, .inl ?_⟩
      simp [hbv, r_theta_from_ab_some, hp]
  | stepB z z' v hz hs ih =>
      rcases ih with ⟨⟨ha, -, -, -⟩, -⟩
      rcases Option.isSome_iff_exists.mp ha with ⟨av, hav⟩
      rcases (setB_ok_iff _ _ _).mp hs with ⟨p, hp, rfl⟩
      rw [hav] at hp
      rcases r_theta_from_ab_ok_inv av v p hp with ⟨-, rfl⟩
      refine ⟨⟨by simp [hav], rfl, rfl, rfl⟩, .inl ?_⟩
      simp [hav, r_theta_from_ab_some, hp]
  | stepR z v hz ih =>
      rcases ih with ⟨⟨-, -, -, ht⟩, -⟩
      rcases Option.isSome_iff_exists.mp ht with ⟨tv, htv⟩
      constructor
      · simp [setR_eq, htv, ab_from_r_theta_some, allSome]
      · right; left
        simp [setR_eq]
  | stepTheta z v hz ih =>
      rcases ih with ⟨⟨-, -, hr, -⟩, -⟩
      rcases Option.isSome_iff_exists.mp hr with ⟨rv, hrv⟩
      constructor
      · simp [setTheta_eq, hrv, ab_from_r_theta_some, allSome]
      · right; left
        simp [setTheta_eq]

/-!
## Reachability without negative modulus injection

The `r` setter stores a negative value unchecked, and the string constructor
parses `r` from text with no sign check; `ReachableNN` is `Reachable`
restricted to histories that avoid both (non-string constructions, `r`
setter arguments `≥ 0`). -/

inductive ReachableNN : PyComplex → Prop where
  | base (aArg bArg rArg thetaArg : Option ℝ) (z : PyComplex) :
      complexInit (aArg.map .inl) bArg rArg thetaArg none none = .ok z → ReachableNN z
  | copyA (w : PyComplex) (bArg rArg thetaArg : Option ℝ) (sArg : Option String)
      (zArg : Option PyComplex) (z : PyComplex) :
      ReachableNN w → complexInit (some (.inr w)) bArg rArg thetaArg sArg zArg = .ok z →
      ReachableNN z
  | copyZ (aArg bArg rArg thetaArg : Option ℝ) (sArg : Option String) (w z : PyComplex) :
      ReachableNN w → complexInit (aArg.map .inl) bArg rArg thetaArg sArg (some w) = .ok z →
      ReachableNN z
  | stepA (z z' : PyComplex) (v : ℝ) : ReachableNN z → z.setA (some v) = .ok z' → ReachableNN z'
  | stepB (z z' : PyComplex) (v : ℝ) : ReachableNN z → z.setB (some v) = .ok z' → ReachableNN z'
  | stepR (z : PyComplex) (v : ℝ) : ReachableNN z → 0 ≤ v → ReachableNN (z.setR (some v))
  | stepTheta (z : PyComplex) (v : ℝ) : ReachableNN z → ReachableNN (z.setTheta (some v))

theorem reachableNN_reachable (z : PyComplex) (h : ReachableNN z) : Reachable z := by
  induction h with
  | base a b r t z hz => exact .base a b r t none z hz
  | copyA w b r t s zo z hw hz ih => exact .copyA w b r t s zo z ih hz
  | copyZ a b r t s w z hw hz ih => exact .copyZ a b r t s w z ih hz
  | stepA z z' v hz hs ih => exact .stepA z z' v ih hs
  | stepB z z' v hz hs ih => exact .stepB z z' v ih hs
  | stepR z v hz hv ih => exact .stepR z v ih
  | stepTheta z v hz ih => exact .stepTheta z v ih

theorem guessRepr_nonneg (st z : PyComplex) (hst : rNonneg st)
    (h : st.guessRepr = .ok z) : rNonneg z := by
  rcases st with ⟨oa, ob, or, ot⟩
  cases oa with
  | none =>
    cases or with
    | none => simp [PyComplex.guessRepr] at h
    | some r0 =>
      cases ot with
      | none => simp [PyComplex.guessRepr] at h
      | some t0 =>
        simp only [PyComplex.guessRepr, Option.isSome_none, Option.isSome_some,
          Bool.false_and, Bool.and_self, Bool.not_false, Bool.not_true, Bool.and_false,
          Bool.false_eq_true, if_false, if_true, Bool.and_true, Bool.true_and,
          pure, Except.pure] at h
        cases h
        intro rv hrv
        simp only [setTheta_eq, setR_eq] at hrv
        exact hst rv hrv
  | some a0 =>
    cases ob with
    | none =>
      cases or with
      | none => simp [PyComplex.guessRepr] at h
      | some r0 =>
        cases ot with
        | none => simp [PyComplex.guessRepr] at h
        | some t0 =>
          simp only [PyComplex.guessRepr, Option.isSome_none, Option.isSome_some,
            Bool.false_and, Bool.and_self, Bool.not_false, Bool.not_true, Bool.and_false,
            Bool.false_eq_true, if_false, if_true, Bool.and_true, Bool.true_and,
            pure, Except.pure] at h
          cases h
          intro rv hrv
          simp only [setTheta_eq, setR_eq] at hrv
          exact hst rv hrv
    | some b0 =>
      by_cases htr : (or.isSome && ot.isSome) = true
      · rcases Option.isSome_iff_exists.mp (Bool.and_elim_left htr) with ⟨r0, rfl⟩
        rcases Option.isSome_iff_exists.mp (Bool.and_elim_right htr) with ⟨t0, rfl⟩
        simp only [PyComplex.guessRepr, Option.isSome_some, Bool.and_self, Bool.not_true,
          Bool.false_and, Bool.false_eq_true, if_false, if_true, Bind.bind] at h
        rcases hrt : r_theta_from_ab (some a0) (some b0) with e | p
        · rw [hrt] at h; exact absurd h (by simp [Except.bind])
        · rw [hrt] at h
          rcases r_theta_from_ab_ok_inv a0 b0 p hrt with ⟨hne, rfl⟩
          simp only [Except.bind] at h
          rcases hc1 : compatible_numbers (derivedR a0 b0) r0 1e-8 with e | c1
          · rw [hc1] at h; exact absurd h (by simp [Except.bind])
          · rw [hc1] at h
            simp only [Except.bind] at h
            cases c1 with
            | false => simp at h
            | true =>
              simp only [if_true] at h
              rcases hc2 : compatible_numbers (derivedTheta a0 b0) t0 1e-8 with e | c2
              · rw [hc2] at h; exact absurd h (by simp [Except.bind])
              · rw [hc2] at h
                simp only [Except.bind] at h
                cases c2 with
                | false => simp at h
                | true =>
                  simp only [if_true, pure, Except.pure, Except.ok.injEq] at h
                  subst h
                  exact hst
      · simp only [PyComplex.guessRepr, Option.isSome_some, Bool.and_self, Bool.not_true,
          Bool.false_and, Bool.false_eq_true, if_false, if_true, htr, Bool.not_eq_true',
          Bool.and_true, Bool.true_and] at h
        rcases (except_bind_ok _ _ _).mp h with ⟨rt, hrt, h₂⟩
        rcases (except_bind_ok _ _ _).mp h₂ with ⟨z₁, h₁, h₃⟩
        rcases (setA_ok_iff _ _ _).mp h₁ with ⟨p, hp, rfl⟩
        rcases (setB_ok_iff _ _ _).mp h₃ with ⟨q, hq, rfl⟩
        simp only at hp hq
        rcases r_theta_from_ab_ok_inv a0 b0 q hq with ⟨hne, rfl⟩
        intro rv hrv
        simp only [Option.some.injEq] at hrv
        exact hrv ▸ derivedR_nonneg a0 b0

theorem copy_chain_r (st₀ w z : PyComplex)
    (h : (st₀.setA w.getA >>= fun st =>
          st.setB w.getB >>= fun st =>
          pure ((st.setR w.getR).setTheta w.getTheta)) = .ok z) :
    z.r = w.r := by
  rcases (except_bind_ok _ _ _).mp h with ⟨z₁, h₁, h₂⟩
  rcases (except_bind_ok _ _ _).mp h₂ with ⟨z₂, h₃, h₄⟩
  simp only [pure, Except.pure, Except.ok.injEq] at h₄
  subst h₄
  simp [setTheta_eq, setR_eq, PyComplex.getR]

theorem complexInit_nonneg (aArg : Option ℝ) (bArg rArg thetaArg : Option ℝ)
    (z : PyComplex)
    (h : complexInit (aArg.map .inl) bArg rArg thetaArg none none = .ok z) :
    rNonneg z := by
  unfold complexInit at h
  cases rArg with
  | none =>
    cases aArg with
    | none =>
      dsimp only [Option.map] at h
      split at h
      · exact absurd h (by simp)
      · exact guessRepr_nonneg _ _ (fun rv hrv => by simp at hrv) h
    | some a0 =>
      dsimp only [Option.map] at h
      split at h
      · exact absurd h (by simp)
      · exact guessRepr_nonneg _ _ (fun rv hrv => by simp at hrv) h
  | some r0 =>
    cases aArg with
    | none =>
      dsimp only [Option.map] at h
      split at h
      · exact absurd h (by simp)
      · rename_i hneg
        refine guessRepr_nonneg _ _ (fun rv hrv => ?_) h
        simp only [Option.some.injEq] at hrv
        subst hrv
        simpa using hneg
    | some a0 =>
      dsimp only [Option.map] at h
      split at h
      · exact absurd h (by simp)
      · rename_i hneg
        refine guessRepr_nonneg _ _ (fun rv hrv => ?_) h
        simp only [Option.some.injEq] at hrv
        subst hrv
        simpa using hneg

/-- Every instance reachable without injecting a negative modulus (through
the unchecked `r` setter or the string constructor) keeps `r ≥ 0`. -/
theorem reachableNN_rNonneg (z : PyComplex) (h : ReachableNN z) : rNonneg z := by
  induction h with
  | base a b r t z hz => exact complexInit_nonneg a b r t z hz
  | copyA w b r t s zo z hw hz ih =>
      unfold complexInit at hz
      dsimp only [Option.map] at hz
      split at hz
      · exact absurd hz (by simp)
      · intro rv hrv
        rw [copy_chain_r _ w z hz] at hrv
        exact ih rv hrv
  | copyZ a b r t s w z hw hz ih =>
      unfold complexInit at hz
      cases a with
      | none =>
        dsimp only [Option.map] at hz
        split at hz
        · exact absurd hz (by simp)
        · intro rv hrv
          rw [copy_chain_r _ w z hz] at hrv
          exact ih rv hrv
      | some a0 =>
        dsimp only [Option.map] at hz
        split at hz
        · exact absurd hz (by simp)
        · intro rv hrv
          rw [copy_chain_r _ w z hz] at hrv
          exact ih rv hrv
  | stepA z z' v hz hs ih =>
      rcases (setA_ok_iff _ _ _).mp hs with ⟨p, hp, rfl⟩
      cases hzb : z.b with
      | none =>
        rw [hzb] at hp
        simp only [r_theta_from_ab, Except.ok.injEq] at hp
        intro rv hrv
        rw [← hp] at hrv
        simp at hrv
      | some bv =>
        rw [hzb] at hp
        rcases r_theta_from_ab_ok_inv v bv p hp with ⟨-, rfl⟩
        intro rv hrv
        simp only [Option.some.injEq] at hrv
        exact hrv ▸ derivedR_nonneg v bv
  | stepB z z' v hz hs ih =>
      rcases (setB_ok_iff _ _ _).mp hs with ⟨p, hp, rfl⟩
      cases hza : z.a with
      | none =>
        rw [hza] at hp
        simp only [r_theta_from_ab, Except.ok.injEq] at hp
        intro rv hrv
        rw [← hp] at hrv
        simp at hrv
      | some av =>
        rw [hza] at hp
        rcases r_theta_from_ab_ok_inv av v p hp with ⟨-, rfl⟩
        intro rv hrv
        simp only [Option.some.injEq] at hrv
        exact hrv ▸ derivedR_nonneg av v
  | stepR z v hz hv ih =>
      intro rv hrv
      simp only [setR_eq, Option.some.injEq] at hrv
      exact hrv ▸ hv
  | stepTheta z v hz ih =>
      intro rv hrv
      simp only [setTheta_eq] at hrv
      exact ih rv hrv

/-!
## Concrete evaluation toolkit -/

theorem arccos_lb (x : ℝ) (hx : x ≤ 999 / 1000) : 1e-15 ≤ Real.arccos x := by
  have hpi : (3 : ℝ) < Real.pi := Real.pi_gt_three
  rcases le_or_lt (-1) x with hx1 | hx1
  · have hcos : (999 / 1000 : ℝ) < Real.cos 1e-15 := by
      have := Real.one_sub_sq_div_two_le_cos (x := 1e-15)
      nlinarith
    have hmem1 : x ∈ Set.Icc (-1 : ℝ) 1 := ⟨hx1, by linarith⟩
    have hmem2 : Real.cos 1e-15 ∈ Set.Icc (-1 : ℝ) 1 :=
      ⟨Real.neg_one_le_cos _, Real.cos_le_one _⟩
    have hlt : Real.arccos (Real.cos 1e-15) < Real.arccos x :=
      Real.strictAntiOn_arccos hmem1 hmem2 (lt_of_le_of_lt hx hcos)
    have heq : Real.arccos (Real.cos 1e-15) = 1e-15 :=
      Real.arccos_cos (by norm_num) (by linarith)
    linarith
  · rw [Real.arccos_of_le_neg_one (by linarith)]
    linarith

theorem clampZero_arccos (x : ℝ) (hx : x ≤ 999 / 1000) :
    clampZero (Real.arccos x) = Real.arccos x :=
  clampZero_of_ge _ (by rw [abs_of_nonneg (Real.arccos_nonneg x)]; exact arccos_lb x hx)

theorem clampZero_neg_arccos (x : ℝ) (hx : x ≤ 999 / 1000) :
    clampZero (-Real.arccos x) = -Real.arccos x :=
  clampZero_of_ge _ (by rw [abs_neg, abs_of_nonneg (Real.arccos_nonneg x)]; exact arccos_lb x hx)

theorem sqrt_eval (x y : ℝ) (h : 0 ≤ x) (hy : y = x ^ 2) : Real.sqrt y = x := by
  rw [hy, Real.sqrt_sq h]

/-- Evaluate `r_theta_from_ab` when `b > 0`. -/
theorem r_theta_eval_pos (a b r t : ℝ) (hb : 0 < b)
    (hr : Real.sqrt (a ^ 2 + b ^ 2) = r) (ht : Real.arccos (a / r) = t)
    (hcl : clampZero t = t) :
    r_theta_from_ab (some a) (some b) = .ok (some r, some t) := by
  have hne : ¬(a = 0 ∧ b = 0) := fun ⟨_, h0⟩ => absurd h0 hb.ne'
  rw [r_theta_from_ab_some a b hne]
  have h1 : derivedR a b = r := hr
  have h2 : derivedTheta a b = t := by
    rw [derivedTheta, derivedTheta0, if_pos hb, h1, ht, hcl]
  rw [h1, h2]

/-- Evaluate `r_theta_from_ab` when `b ≤ 0`. -/
theorem r_theta_eval_nonpos (a b r t : ℝ) (hb : b ≤ 0) (hne : ¬(a = 0 ∧ b = 0))
    (hr : Real.sqrt (a ^ 2 + b ^ 2) = r) (ht : -Real.arccos (a / r) = t)
    (hcl : clampZero t = t) :
    r_theta_from_ab (some a) (some b) = .ok (some r, some t) := by
  rw [r_theta_from_ab_some a b hne]
  have h1 : derivedR a b = r := hr
  have h2 : derivedTheta a b = t := by
    rw [derivedTheta, derivedTheta0, if_neg (not_lt.mpr hb), h1, ht, hcl]
  rw [h1, h2]

/-- Evaluate `ab_from_r_theta` at concrete values. -/
theorem ab_eval (r t a b : ℝ) (ha : r * Real.cos t = a) (hb : r * Real.sin t = b)
    (hca : clampZero a = a) (hcb : clampZero b = b) :
    ab_from_r_theta (some r) (some t) = (some a, some b) := by
  rw [ab_from_r_theta_some, ha, hb, hca, hcb]

/-- Evaluate the polar constructor. -/
theorem mkPolar_eval (r t a b : ℝ) (hr : 0 ≤ r)
    (hab : ab_from_r_theta (some r) (some t) = (some a, some b)) :
    mkPolar r t = .ok ⟨some a, some b, some r, some t⟩ := by
  unfold mkPolar complexInit
  dsimp only
  rw [if_neg (by simp [not_lt.mpr hr])]
  show PyComplex.guessRepr _ = _
  simp only [PyComplex.guessRepr, Option.isSome_none, Option.isSome_some, Bool.false_and,
    Bool.and_self, Bool.not_false, Bool.not_true, Bool.and_false, Bool.false_eq_true,
    if_false, if_true, Bool.and_true, Bool.true_and, pure, Except.pure]
  rw [setR_eq]
  simp only [hab]
  rw [setTheta_eq]
  simp only [hab]

/-- Evaluate the Cartesian constructor. -/
theorem mkCartesian_eval (a b r t : ℝ)
    (hrt : r_theta_from_ab (some a) (some b) = .ok (some r, some t)) :
    mkCartesian a b = .ok ⟨some a, some b, some r, some t⟩ := by
  unfold mkCartesian complexInit
  dsimp only
  rw [if_neg (by simp)]
  show PyComplex.guessRepr _ = _
  simp only [PyComplex.guessRepr, Option.isSome_none, Option.isSome_some, Bool.false_and,
    Bool.and_self, Bool.not_false, Bool.not_true, Bool.and_false, Bool.false_eq_true,
    if_false, if_true, Bool.and_true, Bool.true_and]
  rw [hrt]
  simp only [Bind.bind, Except.bind]
  have h1 : PyComplex.setA ⟨some a, some b, none, none⟩ (some a) = .ok ⟨some a, some b, some r, some t⟩ := by
    apply (setA_ok_iff _ _ _).mpr
    exact ⟨(some r, some t), hrt, rfl⟩
  rw [h1]
  apply (setB_ok_iff _ _ _).mpr
  exact ⟨(some r, some t), hrt, rfl⟩

/-- Evaluate the copy constructor: the final Cartesian pair is refreshed
from the source's polar pair. -/
theorem mkCopy_eval (a b r t a' b' : ℝ) (rt' : Option ℝ × Option ℝ)
    (hrt : r_theta_from_ab (some a) (some b) = .ok rt')
    (hab : ab_from_r_theta (some r) (some t) = (some a', some b')) :
    mkCopy ⟨some a, some b, some r, some t⟩ = .ok ⟨some a', some b', some r, some t⟩ := by
  unfold mkCopy complexInit
  dsimp only
  rw [if_neg (by simp)]
  simp only [PyComplex.getA, PyComplex.getB, PyComplex.getR, PyComplex.getTheta]
  have h1 : PyComplex.setA ⟨none, none, none, none⟩ (some a) = .ok ⟨some a, none, none, none⟩ := by
    apply (setA_ok_iff _ _ _).mpr
    exact ⟨(none, none), rfl, rfl⟩
  have h2 : PyComplex.setB ⟨some a, none, none, none⟩ (some b) = .ok ⟨some a, some b, rt'.1, rt'.2⟩ := by
    apply (setB_ok_iff _ _ _).mpr
    exact ⟨rt', hrt, rfl⟩
  simp only [Bind.bind, Except.bind, h1, h2]
  rw [setR_eq, setTheta_eq]
  simp only [hab, pure, Except.pure]

/-!
## Concrete instance values -/

theorem clampZero_of_lt (x : ℝ) (h : |x| < 1e-15) : clampZero x = 0 := if_pos h

theorem clampZero_one : clampZero 1 = 1 :=
  clampZero_of_ge 1 (by norm_num)

theorem rt_one_zero : r_theta_from_ab (some 1) (some 0) = .ok (some 1, some 0) := by
  apply r_theta_eval_nonpos 1 0 1 0 le_rfl (by norm_num)
  · exact sqrt_eval 1 _ (by norm_num) (by norm_num)
  · rw [div_one, Real.arccos_one, neg_zero]
  · exact clampZero_zero

theorem ab_one_zero : ab_from_r_theta (some 1) (some 0) = (some 1, some 0) := by
  apply ab_eval 1 0 1 0
  · rw [Real.cos_zero, mul_one]
  · rw [Real.sin_zero, mul_zero]
  · exact clampZero_one
  · exact clampZero_zero

theorem mkPolar_one_zero : mkPolar 1 0 = .ok ⟨some 1, some 0, some 1, some 0⟩ :=
  mkPolar_eval 1 0 1 0 zero_le_one ab_one_zero

theorem reachable_one_zero : Reachable ⟨some 1, some 0, some 1, some 0⟩ :=
  .base none none (some 1) (some 0) none _ mkPolar_one_zero

theorem ab_eps_zero : ab_from_r_theta (some 1e-16) (some 0) = (some 0, some 0) := by
  rw [ab_from_r_theta_some, Real.cos_zero, Real.sin_zero, mul_one, mul_zero,
    clampZero_of_lt _ (by rw [abs_of_nonneg] <;> norm_num), clampZero_zero]

theorem mkPolar_eps : mkPolar 1e-16 0 = .ok ⟨some 0, some 0, some 1e-16, some 0⟩ :=
  mkPolar_eval _ 0 0 0 (by norm_num) ab_eps_zero

theorem reachable_eps : Reachable ⟨some 0, some 0, some 1e-16, some 0⟩ :=
  .base none none (some 1e-16) (some 0) none _ mkPolar_eps

theorem setR_neg_one :
    PyComplex.setR ⟨some 1, some 0, some 1, some 0⟩ (some (-1)) =
      ⟨some (-1), some 0, some (-1), some 0⟩ := by
  rw [setR_eq]
  simp only [ab_from_r_theta_some, Real.cos_zero, Real.sin_zero, mul_one, mul_zero,
    clampZero_zero]
  rw [clampZero_of_ge _ (by norm_num)]

theorem reachable_neg_one : Reachable (⟨some (-1), some 0, some (-1), some 0⟩ : PyComplex) :=
  setR_neg_one ▸ Reachable.stepR _ (-1) reachable_one_zero

theorem ab_zero_zero : ab_from_r_theta (some 0) (some 0) = (some 0, some 0) := by
  rw [ab_from_r_theta_some, Real.cos_zero, Real.sin_zero, zero_mul, mul_zero, clampZero_zero]

theorem mkPolar_zero : mkPolar 0 0 = .ok ⟨some 0, some 0, some 0, some 0⟩ :=
  mkPolar_eval 0 0 0 0 le_rfl ab_zero_zero

theorem reachable_zero : Reachable ⟨some 0, some 0, some 0, some 0⟩ :=
  .base none none (some 0) (some 0) none _ mkPolar_zero

/-!
## The Cartesian → polar → Cartesian round trip -/

theorem abs_le_derivedR (a b : ℝ) : |a| ≤ derivedR a b := by
  rw [derivedR, ← Real.sqrt_sq_eq_abs]
  exact Real.sqrt_le_sqrt (by nlinarith [sq_nonneg b])

theorem div_derivedR_mem (a b : ℝ) (h : ¬(a = 0 ∧ b = 0)) :
    -1 ≤ a / derivedR a b ∧ a / derivedR a b ≤ 1 := by
  have hr := derivedR_pos a b h
  have habs := abs_le_derivedR a b
  obtain ⟨hl, hu⟩ := abs_le.mp habs
  constructor
  · rw [le_div_iff₀ hr]; linarith
  · rw [div_le_one hr]; exact hu

theorem sq_derivedR (a b : ℝ) : derivedR a b ^ 2 = a ^ 2 + b ^ 2 :=
  Real.sq_sqrt (by positivity)

theorem roundtrip_cos (a b : ℝ) (h : ¬(a = 0 ∧ b = 0)) :
    derivedR a b * Real.cos (derivedTheta0 a b) = a := by
  have hr := derivedR_pos a b h
  obtain ⟨h1, h2⟩ := div_derivedR_mem a b h
  rw [derivedTheta0]
  split
  · rw [Real.cos_arccos h1 h2]
    field_simp
  · rw [Real.cos_neg, Real.cos_arccos h1 h2]
    field_simp

theorem sin_arccos_div (a b : ℝ) (h : ¬(a = 0 ∧ b = 0)) :
    Real.sin (Real.arccos (a / derivedR a b)) = |b| / derivedR a b := by
  have hr := derivedR_pos a b h
  rw [Real.sin_arccos]
  have h2 : 1 - (a / derivedR a b) ^ 2 = b ^ 2 / derivedR a b ^ 2 := by
    field_simp
    nlinarith [sq_derivedR a b]
  have h3 : b ^ 2 / derivedR a b ^ 2 = (|b| / derivedR a b) ^ 2 := by
    rw [div_pow, sq_abs]
  rw [h2, h3, Real.sqrt_sq (by positivity)]

theorem roundtrip_sin (a b : ℝ) (h : ¬(a = 0 ∧ b = 0)) :
    derivedR a b * Real.sin (derivedTheta0 a b) = b := by
  have hr := derivedR_pos a b h
  rw [derivedTheta0]
  split
  · rename_i hb
    rw [sin_arccos_div a b h, abs_of_pos hb]
    field_simp
  · rename_i hb
    rw [Real.sin_neg, sin_arccos_div a b h, abs_of_nonpos (not_lt.mp hb)]
    field_simp

/-!
## Claims C1 and C2 -/

/-- The spec's tolerance rule, from its words: equal, or relative difference
(normalised by the first number) below `1e-8`. -/
def specTolEq (x y : ℝ) : Prop := x = y ∨ (x ≠ 0 ∧ |(x - y) / x| < 1e-8)

/-- Claim C1 as stated, from the spec's words: the stored Cartesian pair and
the point described by the stored polar pair agree componentwise under the
tolerance rule, and the stored modulus is non-negative. -/
def C1StatedInvariant (z : PyComplex) : Prop :=
  ∃ a b r t, z.a = some a ∧ z.b = some b ∧ z.r = some r ∧ z.theta = some t ∧
    specTolEq a (r * Real.cos t) ∧ specTolEq b (r * Real.sin t) ∧ 0 ≤ r

/-- C1 fails as stated: setting `r` to `-1` on `Complex(r=1, theta=0)` stores
a negative modulus, and `Complex(r=1e-16, theta=0)` clamps its Cartesian
pair to `(0, 0)` while the polar pair still describes `(1e-16, 0)`, which is
outside the tolerance rule. -/
theorem claim_C1_counterexample :
    (Reachable (⟨some (-1), some 0, some (-1), some 0⟩ : PyComplex) ∧
      ¬ C1StatedInvariant ⟨some (-1), some 0, some (-1), some 0⟩) ∧
    (Reachable (⟨some 0, some 0, some 1e-16, some 0⟩ : PyComplex) ∧
      ¬ C1StatedInvariant ⟨some 0, some 0, some 1e-16, some 0⟩) := by
  refine ⟨⟨reachable_neg_one, ?_⟩, ⟨reachable_eps, ?_⟩⟩
  · rintro ⟨a, b, r, t, ha, hb, hr, ht, -, -, hnn⟩
    simp only [Option.some.injEq] at hr
    rw [← hr] at hnn
    norm_num at hnn
  · rintro ⟨a, b, r, t, ha, hb, hr, ht, hta, -, -⟩
    simp only [Option.some.injEq] at ha hr ht
    rw [← ha, ← hr, ← ht, Real.cos_zero, mul_one] at hta
    rcases hta with h | ⟨h0, -⟩
    · norm_num at h
    · exact h0 rfl

/-- C1 (amended): at every observable instant of a reachable instance all
four slots are filled and either one stored pair is the exact conversion
image of the other, or (both-pairs construction) the stored polar pair was
validated against the derived one by the tolerance helper; the stored
modulus is non-negative for every instance whose history avoids the
unchecked negative-`r` injections (the `r` setter with a negative argument,
and the string constructor, which parses `r` with no sign check). -/
theorem claim_C1_amended :
    (∀ z, Reachable z → allSome z ∧ RepOk z) ∧
    (∀ z, ReachableNN z → rNonneg z) :=
  ⟨reachable_inv, reachableNN_rNonneg⟩

/-- C2 fails as stated: the Cartesian constructor is not total on finite
pairs — at `(0, 0)` the conversion divides `a` by `r = 0` and construction
raises `ZeroDivisionError`. -/
theorem claim_C2_counterexample : mkCartesian 0 0 = .error .zeroDivisionError := by
  unfold mkCartesian complexInit
  dsimp only
  rw [if_neg (by simp)]
  show PyComplex.guessRepr _ = _
  simp only [PyComplex.guessRepr, Option.isSome_none, Option.isSome_some, Bool.false_and,
    Bool.and_self, Bool.not_false, Bool.not_true, Bool.and_false, Bool.false_eq_true,
    if_false, if_true, Bool.and_true, Bool.true_and]
  rw [r_theta_from_ab_zero]
  rfl

/-- C2 (amended): for `(a, b) ≠ (0, 0)` the Cartesian construction succeeds
with `r = sqrt(a² + b²)` and `theta = acos(a/r)` if `b > 0` else
`-acos(a/r)`, zero-clamped below `1e-15`; and whenever none of the three
zero-clamps actually moves a value, reconstructing the Cartesian pair from
the stored polar pair reproduces `(a, b)` exactly. -/
theorem claim_C2_amended (a b : ℝ) (h : ¬(a = 0 ∧ b = 0)) :
    mkCartesian a b = .ok ⟨some a, some b, some (derivedR a b), some (derivedTheta a b)⟩ ∧
    derivedR a b = Real.sqrt (a ^ 2 + b ^ 2) ∧
    derivedTheta a b = clampZero (if b > 0 then Real.arccos (a / Real.sqrt (a ^ 2 + b ^ 2))
      else -Real.arccos (a / Real.sqrt (a ^ 2 + b ^ 2))) ∧
    (clampZero (derivedTheta0 a b) = derivedTheta0 a b →
      clampZero a = a → clampZero b = b →
      ab_from_r_theta (some (derivedR a b)) (some (derivedTheta a b)) = (some a, some b)) := by
  refine ⟨mkCartesian_eval a b _ _ (r_theta_from_ab_some a b h), rfl, rfl, ?_⟩
  intro hclθ hcla hclb
  rw [derivedTheta, hclθ, ab_from_r_theta_some, roundtrip_cos a b h, roundtrip_sin a b h,
    hcla, hclb]

/-- C2 witness at `(1, 0)`. -/
theorem claim_C2_witness :
    mkCartesian 1 0 = .ok ⟨some 1, some 0, some (derivedR 1 0), some (derivedTheta 1 0)⟩ ∧
    ab_from_r_theta (some (derivedR 1 0)) (some (derivedTheta 1 0)) = (some 1, some 0) := by
  have hR : derivedR 1 0 = 1 := sqrt_eval 1 _ (by norm_num) (by norm_num)
  have hT0 : derivedTheta0 1 0 = 0 := by
    rw [derivedTheta0, if_neg (by norm_num), hR, div_one, Real.arccos_one, neg_zero]
  have h := claim_C2_amended 1 0 (by norm_num)
  exact ⟨h.1, h.2.2.2 (by rw [hT0, clampZero_zero]) clampZero_one clampZero_zero⟩

/-!
## Claims C3 and C4 -/

theorem compatible_numbers_ok_true (x y : ℝ) :
    compatible_numbers x y 1e-8 = .ok true ↔ specTolEq x y := by
  unfold compatible_numbers specTolEq
  by_cases h1 : x = y
  · simp [h1]
  · by_cases h2 : x = 0
    · simp [h1, h2]
    · by_cases h3 : |(x - y) / x| < 1e-8 <;> simp [h1, h2, h3]

theorem compatible_numbers_err (x y : ℝ) (h1 : x ≠ y) (h2 : x = 0) :
    compatible_numbers x y 1e-8 = .error .zeroDivisionError := by
  subst h2
  simp [compatible_numbers, h1]

theorem compatible_numbers_ok_false (x y : ℝ) (h1 : x ≠ 0) (h2 : ¬ specTolEq x y) :
    compatible_numbers x y 1e-8 = .ok false := by
  unfold specTolEq at h2
  push_neg at h2
  obtain ⟨h3, h4⟩ := h2
  simp [compatible_numbers, h3, h1, not_lt.mpr (h4 h1)]

/-- The both-pairs construction reduces to the validation chain: check `r`
first (short-circuit), then `theta`; on success the stored slots are exactly
the four supplied values. -/
theorem mkBoth_validate (a b r0 t0 : ℝ) (h0 : ¬(a = 0 ∧ b = 0)) (hr0 : ¬ r0 < 0) :
    mkBoth a b r0 t0 =
      (match compatible_numbers (derivedR a b) r0 1e-8 with
       | .error e => .error e
       | .ok c1 =>
         if c1 = true then
           match compatible_numbers (derivedTheta a b) t0 1e-8 with
           | .error e => .error e
           | .ok c2 =>
             if c2 = true then .ok ⟨some a, some b, some r0, some t0⟩
             else .error (.valueError
               "You specified both cartesian and trigo representations but the values are not compatible")
         else .error (.valueError
           "You specified both cartesian and trigo representations but the values are not compatible")) := by
  unfold mkBoth complexInit
  dsimp only
  rw [if_neg (by simpa using hr0)]
  show PyComplex.guessRepr _ = _
  simp only [PyComplex.guessRepr, Option.isSome_some, Bool.and_self, Bool.not_true,
    Bool.false_and, Bool.false_eq_true, if_false, if_true, Bind.bind]
  rw [r_theta_from_ab_some a b h0]
  simp only [Except.bind]
  rcases compatible_numbers (derivedR a b) r0 1e-8 with e | c1
  · rfl
  · cases c1
    · rfl
    · simp only [if_true]
      rcases compatible_numbers (derivedTheta a b) t0 1e-8 with e | c2
      · rfl
      · cases c2 <;> rfl

theorem derivedR_one_zero : derivedR 1 0 = 1 :=
  sqrt_eval 1 _ (by norm_num) (by norm_num)

theorem derivedTheta_one_zero : derivedTheta 1 0 = 0 := by
  rw [derivedTheta, derivedTheta0, if_neg (by norm_num), derivedR_one_zero, div_one,
    Real.arccos_one, neg_zero, clampZero_zero]

/-- In the "otherwise" case the failure is not always an invalid-argument
error: when a derived polar component is exactly zero and differs from the
supplied one, `compatible_numbers` divides by zero. -/
def failsWithInvalidArg (x : Except PyErr PyComplex) : Prop :=
  match x with
  | .error (.valueError _) => True
  | _ => False

/-- C3 fails as stated: `Complex(1, 0, r=1, theta=1)` is incompatible (the
derived angle is `0`, the supplied one `1`), yet construction fails with
`ZeroDivisionError` — not an invalid-argument error — because the tolerance
helper divides by the derived angle `0`. -/
theorem claim_C3_counterexample :
    mkBoth 1 0 1 1 = .error .zeroDivisionError ∧
    ¬ failsWithInvalidArg (mkBoth 1 0 1 1) ∧
    ¬ specTolEq (derivedTheta 1 0) 1 := by
  have hval : mkBoth 1 0 1 1 = .error .zeroDivisionError := by
    rw [mkBoth_validate 1 0 1 1 (by norm_num) (by norm_num), derivedR_one_zero,
      derivedTheta_one_zero]
    rw [show compatible_numbers 1 1 1e-8 = .ok true from
      (compatible_numbers_ok_true 1 1).mpr (.inl rfl)]
    rw [compatible_numbers_err 0 1 (by norm_num) rfl]
    rfl
  refine ⟨hval, ?_, ?_⟩
  · rw [hval]
    simp [failsWithInvalidArg]
  · rw [derivedTheta_one_zero]
    rintro (h | ⟨h0, -⟩)
    · norm_num at h
    · exact h0 rfl

/-- C3 (amended): with both pairs supplied and `(a, b) ≠ (0, 0)`: if the
derived polar pair agrees with the supplied one under the tolerance rule,
construction succeeds keeping all four supplied values exactly; if the `r`
components disagree, or the `theta` components disagree with a nonzero
derived `theta`, construction fails with the invalid-argument error; if the
derived `theta` is zero and differs from the supplied one, it fails with
`ZeroDivisionError` instead; a negative supplied `r` fails with the
negative-norm invalid-argument error. -/
theorem claim_C3_amended (a b r0 t0 : ℝ) (h0 : ¬(a = 0 ∧ b = 0)) :
    (0 ≤ r0 → specTolEq (derivedR a b) r0 → specTolEq (derivedTheta a b) t0 →
      mkBoth a b r0 t0 = .ok ⟨some a, some b, some r0, some t0⟩) ∧
    (0 ≤ r0 → ¬ specTolEq (derivedR a b) r0 →
      mkBoth a b r0 t0 = .error (.valueError
        "You specified both cartesian and trigo representations but the values are not compatible")) ∧
    (0 ≤ r0 → specTolEq (derivedR a b) r0 → ¬ specTolEq (derivedTheta a b) t0 →
      derivedTheta a b ≠ 0 →
      mkBoth a b r0 t0 = .error (.valueError
        "You specified both cartesian and trigo representations but the values are not compatible")) ∧
    (0 ≤ r0 → specTolEq (derivedR a b) r0 → derivedTheta a b = 0 → t0 ≠ 0 →
      mkBoth a b r0 t0 = .error .zeroDivisionError) ∧
    (r0 < 0 → mkBoth a b r0 t0 =
      .error (.valueError "A complex number's norm cannot be negative!")) := by
  refine ⟨?_, ?_, ?_, ?_, ?_⟩
  · intro hr hc1 hc2
    rw [mkBoth_validate a b r0 t0 h0 (not_lt.mpr hr),
      (compatible_numbers_ok_true _ _).mpr hc1, (compatible_numbers_ok_true _ _).mpr hc2]
    rfl
  · intro hr hc1
    rw [mkBoth_validate a b r0 t0 h0 (not_lt.mpr hr),
      compatible_numbers_ok_false _ _ (derivedR_pos a b h0).ne' hc1]
    rfl
  · intro hr hc1 hc2 hθ
    rw [mkBoth_validate a b r0 t0 h0 (not_lt.mpr hr),
      (compatible_numbers_ok_true _ _).mpr hc1, compatible_numbers_ok_false _ _ hθ hc2]
    rfl
  · intro hr hc1 hθ ht0
    rw [mkBoth_validate a b r0 t0 h0 (not_lt.mpr hr),
      (compatible_numbers_ok_true _ _).mpr hc1,
      compatible_numbers_err _ _ (by rw [hθ]; exact fun h => ht0 h.symm) hθ]
    rfl
  · intro hr
    unfold mkBoth complexInit
    dsimp only
    rw [if_pos (by simpa using hr)]

/-- C3 witness at `Complex(1, 0, r=1, theta=0)`. -/
theorem claim_C3_witness :
    mkBoth 1 0 1 0 = .ok ⟨some 1, some 0, some 1, some 0⟩ :=
  (claim_C3_amended 1 0 1 0 (by norm_num)).1 (by norm_num)
    (by rw [derivedR_one_zero]; exact .inl rfl)
    (by rw [derivedTheta_one_zero]; exact .inl rfl)

/-- C4 fails as stated: a copy construction whose first positional argument
is a `Complex` resets `r` to `None` before the sign check, so
`Complex(w, r=-1)` succeeds. -/
theorem claim_C4_counterexample :
    complexInit (some (.inr ⟨some 1, some 0, some 1, some 0⟩)) none (some (-1)) none
      none none = .ok ⟨some 1, some 0, some 1, some 0⟩ := by
  show mkCopy _ = _
  exact mkCopy_eval 1 0 1 0 1 0 _ rt_one_zero ab_one_zero

/-- C4 (amended): whenever the first positional argument is not a `Complex`
instance, supplying `r < 0` makes construction fail with the invalid-argument
error before any slot is assigned, whatever the other arguments; no state
escapes. -/
theorem claim_C4_amended (aArg bArg thetaArg : Option ℝ) (sArg : Option String)
    (zArg : Option PyComplex) (rv : ℝ) (h : rv < 0) :
    complexInit (aArg.map .inl) bArg (some rv) thetaArg sArg zArg =
      .error (.valueError "A complex number's norm cannot be negative!") := by
  unfold complexInit
  cases aArg <;> dsimp only [Option.map] <;> rw [if_pos (by simpa using h)]

/-- C4 witness: `Complex(r=-1)` fails with the invalid-argument error. -/
theorem claim_C4_witness :
    complexInit none none (some (-1)) none none none =
      .error (.valueError "A complex number's norm cannot be negative!") :=
  claim_C4_amended none none none none none (-1) (by norm_num)

/-!
## Claim C5 -/

/-- C5: two instances compare equal iff their Cartesian pairs agree or
their polar pairs agree (either alone suffices); against a bare real only
`a` is compared; `__ne__` is the boolean negation of `__eq__` for every
operand kind. -/
theorem claim_C5_equality (z w : PyComplex) (x : ℝ) (o : Operand) :
    (z.eqCx w = true ↔
      (z.getA = w.getA ∧ z.getB = w.getB) ∨ (z.getR = w.getR ∧ z.getTheta = w.getTheta)) ∧
    (z.eqC (.cpx w) = .ok (z.eqCx w)) ∧
    (z.eqC (.scalar x) = .ok true ↔ z.getA = some x) ∧
    (z.neC o = (z.eqC o).map fun b => !b) := by
  refine ⟨?_, rfl, ?_, rfl⟩
  · by_cases h1 : z.getA = w.getA ∧ z.getB = w.getB <;>
      by_cases h2 : z.getR = w.getR ∧ z.getTheta = w.getTheta <;>
      simp [PyComplex.eqCx, h1, h2]
  · simp [PyComplex.eqC]

/-!
## Values for claims C6 and C7 -/

theorem clampZero_pi_div_four : clampZero (Real.pi / 4) = Real.pi / 4 := by
  have := Real.pi_gt_three
  apply clampZero_of_ge
  rw [abs_of_pos (by linarith)]
  linarith

theorem clampZero_pi_div_two : clampZero (Real.pi / 2) = Real.pi / 2 := by
  have := Real.pi_gt_three
  apply clampZero_of_ge
  rw [abs_of_pos (by linarith)]
  linarith

theorem one_div_sqrt_two : (1 : ℝ) / Real.sqrt 2 = Real.sqrt 2 / 2 := by
  rw [div_eq_div_iff (Real.sqrt_pos.mpr (by norm_num)).ne' (by norm_num : (2:ℝ) ≠ 0),
    one_mul, Real.mul_self_sqrt (by norm_num)]

theorem arccos_one_div_sqrt_two : Real.arccos (1 / Real.sqrt 2) = Real.pi / 4 := by
  have hpi := Real.pi_pos
  rw [one_div_sqrt_two, ← Real.cos_pi_div_four, Real.arccos_cos (by linarith) (by linarith)]

theorem rt_one_one :
    r_theta_from_ab (some 1) (some 1) = .ok (some (Real.sqrt 2), some (Real.pi / 4)) := by
  apply r_theta_eval_pos 1 1 (Real.sqrt 2) (Real.pi / 4) one_pos
  · norm_num
  · exact arccos_one_div_sqrt_two
  · exact clampZero_pi_div_four

theorem sqrt_two_mul_cos_pi_div_four : Real.sqrt 2 * Real.cos (Real.pi / 4) = 1 := by
  rw [Real.cos_pi_div_four, ← mul_div_assoc, Real.mul_self_sqrt (by norm_num)]
  norm_num

theorem sqrt_two_mul_sin_pi_div_four : Real.sqrt 2 * Real.sin (Real.pi / 4) = 1 := by
  rw [Real.sin_pi_div_four, ← mul_div_assoc, Real.mul_self_sqrt (by norm_num)]
  norm_num

theorem ab_one_one :
    ab_from_r_theta (some (Real.sqrt 2)) (some (Real.pi / 4)) = (some 1, some 1) :=
  ab_eval _ _ 1 1 sqrt_two_mul_cos_pi_div_four sqrt_two_mul_sin_pi_div_four
    clampZero_one clampZero_one

theorem mkCopy_one_one :
    mkCopy ⟨some 1, some 1, some (Real.sqrt 2), some (Real.pi / 4)⟩ =
      .ok ⟨some 1, some 1, some (Real.sqrt 2), some (Real.pi / 4)⟩ :=
  mkCopy_eval 1 1 _ _ 1 1 _ rt_one_one ab_one_one

theorem rt_zero_one : r_theta_from_ab (some 0) (some 1) = .ok (some 1, some (Real.pi / 2)) := by
  apply r_theta_eval_pos 0 1 1 (Real.pi / 2) one_pos
  · exact sqrt_eval 1 _ (by norm_num) (by norm_num)
  · rw [zero_div, Real.arccos_zero]
  · exact clampZero_pi_div_two

theorem cos_arccos35 : Real.cos (Real.arccos (3 / 5)) = 3 / 5 :=
  Real.cos_arccos (by norm_num) (by norm_num)

theorem sin_arccos35 : Real.sin (Real.arccos (3 / 5)) = 4 / 5 := by
  rw [Real.sin_arccos]
  exact sqrt_eval (4 / 5) _ (by norm_num) (by norm_num)

theorem rt_three_four :
    r_theta_from_ab (some 3) (some 4) = .ok (some 5, some (Real.arccos (3 / 5))) := by
  apply r_theta_eval_pos 3 4 5 (Real.arccos (3 / 5)) (by norm_num)
  · exact sqrt_eval 5 _ (by norm_num) (by norm_num)
  · norm_num
  · exact clampZero_arccos _ (by norm_num)

theorem rt_three_neg_four :
    r_theta_from_ab (some 3) (some (-4)) = .ok (some 5, some (-Real.arccos (3 / 5))) := by
  apply r_theta_eval_nonpos 3 (-4) 5 (-Real.arccos (3 / 5)) (by norm_num) (by norm_num)
  · exact sqrt_eval 5 _ (by norm_num) (by norm_num)
  · norm_num
  · exact clampZero_neg_arccos _ (by norm_num)

theorem ab_neg_arccos35 (k a b : ℝ) (ha : k * (3 / 5) = a) (hb : -(k * (4 / 5)) = b)
    (hca : clampZero a = a) (hcb : clampZero b = b) :
    ab_from_r_theta (some k) (some (-Real.arccos (3 / 5))) = (some a, some b) := by
  apply ab_eval k _ a b _ _ hca hcb
  · rw [Real.cos_neg, cos_arccos35, ha]
  · rw [Real.sin_neg, sin_arccos35, mul_neg, hb]

theorem ab_arccos35 (k a b : ℝ) (ha : k * (3 / 5) = a) (hb : k * (4 / 5) = b)
    (hca : clampZero a = a) (hcb : clampZero b = b) :
    ab_from_r_theta (some k) (some (Real.arccos (3 / 5))) = (some a, some b) := by
  apply ab_eval k _ a b _ _ hca hcb
  · rw [cos_arccos35, ha]
  · rw [sin_arccos35, hb]

theorem rt_nine_neg_twelve :
    r_theta_from_ab (some 9) (some (-12)) = .ok (some 15, some (-Real.arccos (9 / 15))) := by
  apply r_theta_eval_nonpos 9 (-12) 15 (-Real.arccos (9 / 15)) (by norm_num) (by norm_num)
  · exact sqrt_eval 15 _ (by norm_num) (by norm_num)
  · norm_num
  · exact clampZero_neg_arccos _ (by norm_num)

/-!
## Operator evaluation helpers -/

theorem subC_scalar (z zc z' : PyComplex) (x av d : ℝ)
    (hcopy : mkCopy z = .ok zc) (ha : zc.a = some av) (hd : av - x = d)
    (hset : zc.setA (some d) = .ok z') :
    z.subC (.scalar x) = .ok z' := by
  unfold PyComplex.subC
  rw [hcopy]
  simp only [Bind.bind, Except.bind, coerceOperand]
  dsimp only [pyBin, PyComplex.getA]
  rw [ha]
  dsimp only
  rw [hd, hset]

theorem mulC_scalar (z zc : PyComplex) (x rv p : ℝ)
    (hcopy : mkCopy z = .ok zc) (hr : zc.r = some rv) (hp : rv * x = p) :
    z.mulC (.scalar x) = .ok (zc.setR (some p)) := by
  unfold PyComplex.mulC
  rw [hcopy]
  simp only [Bind.bind, Except.bind, coerceOperand]
  dsimp only [pyBin, PyComplex.getR]
  rw [hr]
  dsimp only
  rw [hp]
  rfl

theorem divC_scalar (z zc : PyComplex) (x rv q : ℝ)
    (hcopy : mkCopy z = .ok zc) (hr : zc.r = some rv) (hx : ¬ x = 0) (hq : rv / x = q) :
    z.divC (.scalar x) = .ok (zc.setR (some q)) := by
  unfold PyComplex.divC
  rw [hcopy]
  simp only [Bind.bind, Except.bind, coerceOperand]
  dsimp only [pyDivOp, PyComplex.getR]
  rw [hr]
  dsimp only
  rw [if_neg hx, hq]
  rfl

theorem conjugateC_eq (a b : ℝ) (r t : Option ℝ) :
    PyComplex.conjugateC ⟨some a, some b, r, t⟩ = mkCartesian a (-b) := rfl

/-!
## Claim C6 -/

/-- C6: what the reflected operators actually compute.  `1 - Complex(1, 1)`
goes through `__rsub__ = self - other` and yields `0 + 1i` — the operands
are not swapped, contradicting the claimed `(x - z.a, -z.b)` (which would
be `0 - 1i`); reflected scalar division is correct: `3 / Complex(3, 4)` is
`conj(z)·3 / |z|²  = 0.36 - 0.48i`. -/
theorem claim_C6_reflected :
    PyComplex.rsubC ⟨some 1, some 1, some (Real.sqrt 2), some (Real.pi / 4)⟩ (.scalar 1) =
      .ok ⟨some 0, some 1, some 1, some (Real.pi / 2)⟩ ∧
    ((1 : ℝ) ≠ -1) ∧
    PyComplex.rdivC ⟨some 3, some 4, some 5, some (Real.arccos (3 / 5))⟩ (.scalar 3) =
      .ok ⟨some 0.36, some (-0.48), some 0.6, some (-Real.arccos (3 / 5))⟩ := by
  refine ⟨?_, by norm_num, ?_⟩
  · show PyComplex.subC _ _ = _
    apply subC_scalar _ _ _ 1 1 0 mkCopy_one_one rfl (by norm_num)
    apply (setA_ok_iff _ _ _).mpr
    exact ⟨(some 1, some (Real.pi / 2)), rt_zero_one, rfl⟩
  · have hconj : PyComplex.conjugateC ⟨some 3, some 4, some 5, some (Real.arccos (3 / 5))⟩ =
        .ok ⟨some 3, some (-4), some 5, some (-Real.arccos (3 / 5))⟩ := by
      rw [conjugateC_eq]
      exact mkCartesian_eval 3 (-4) 5 _ rt_three_neg_four
    have hab5 : ab_from_r_theta (some 5) (some (-Real.arccos (3 / 5))) = (some 3, some (-4)) :=
      ab_neg_arccos35 5 3 (-4) (by norm_num) (by norm_num)
        (clampZero_of_ge _ (by norm_num)) (clampZero_of_ge _ (by norm_num))
    have hcopy34n : mkCopy ⟨some 3, some (-4), some 5, some (-Real.arccos (3 / 5))⟩ =
        .ok ⟨some 3, some (-4), some 5, some (-Real.arccos (3 / 5))⟩ :=
      mkCopy_eval 3 (-4) 5 _ 3 (-4) _ rt_three_neg_four hab5
    have hset15 : PyComplex.setR ⟨some 3, some (-4), some 5, some (-Real.arccos (3 / 5))⟩
        (some 15) = ⟨some 9, some (-12), some 15, some (-Real.arccos (3 / 5))⟩ := by
      rw [setR_eq]
      rw [show (⟨some 3, some (-4), some 5, some (-Real.arccos (3 / 5))⟩ : PyComplex).theta =
        some (-Real.arccos (3 / 5)) from rfl]
      rw [ab_neg_arccos35 15 9 (-12) (by norm_num) (by norm_num)
        (clampZero_of_ge _ (by norm_num)) (clampZero_of_ge _ (by norm_num))]
    have hmul : PyComplex.mulC ⟨some 3, some (-4), some 5, some (-Real.arccos (3 / 5))⟩
        (.scalar 3) = .ok ⟨some 9, some (-12), some 15, some (-Real.arccos (3 / 5))⟩ := by
      rw [mulC_scalar _ _ 3 5 15 hcopy34n rfl (by norm_num), hset15]
    have hab15 : ab_from_r_theta (some 15) (some (-Real.arccos (3 / 5))) =
        (some 9, some (-12)) :=
      ab_neg_arccos35 15 9 (-12) (by norm_num) (by norm_num)
        (clampZero_of_ge _ (by norm_num)) (clampZero_of_ge _ (by norm_num))
    have hcopy912 : mkCopy ⟨some 9, some (-12), some 15, some (-Real.arccos (3 / 5))⟩ =
        .ok ⟨some 9, some (-12), some 15, some (-Real.arccos (3 / 5))⟩ :=
      mkCopy_eval 9 (-12) 15 _ 9 (-12) _ rt_nine_neg_twelve hab15
    have hset06 : PyComplex.setR ⟨some 9, some (-12), some 15, some (-Real.arccos (3 / 5))⟩
        (some 0.6) = ⟨some 0.36, some (-0.48), some 0.6, some (-Real.arccos (3 / 5))⟩ := by
      rw [setR_eq]
      rw [show (⟨some 9, some (-12), some 15, some (-Real.arccos (3 / 5))⟩ : PyComplex).theta =
        some (-Real.arccos (3 / 5)) from rfl]
      rw [ab_neg_arccos35 0.6 0.36 (-0.48) (by norm_num) (by norm_num)
        (clampZero_of_ge _ (by rw [abs_of_pos] <;> norm_num))
        (clampZero_of_ge _ (by rw [abs_of_neg] <;> norm_num))]
    have hdiv : PyComplex.divC ⟨some 9, some (-12), some 15, some (-Real.arccos (3 / 5))⟩
        (.scalar (5 ^ 2)) =
        .ok ⟨some 0.36, some (-0.48), some 0.6, some (-Real.arccos (3 / 5))⟩ := by
      rw [divC_scalar _ _ (5 ^ 2) 15 0.6 hcopy912 rfl (by norm_num) (by norm_num), hset06]
    unfold PyComplex.rdivC
    rw [hconj]
    simp only [Bind.bind, Except.bind]
    rw [hmul]
    dsimp only [PyComplex.getR]
    exact hdiv

/-!
## Claim C7 -/

theorem setB_eq_error (z : PyComplex) (v : Option ℝ) (e : PyErr)
    (h : r_theta_from_ab z.a v = .error e) : z.setB v = .error e := by
  simp [PyComplex.setB, PyComplex.getA, PyComplex.getB, h, Bind.bind, Except.bind]

theorem mkCopy_zero :
    mkCopy ⟨some 0, some 0, some 0, some 0⟩ = .error .zeroDivisionError := by
  unfold mkCopy complexInit
  dsimp only
  rw [if_neg (by simp)]
  simp only [PyComplex.getA, PyComplex.getB, PyComplex.getR, PyComplex.getTheta]
  have h1 : PyComplex.setA ⟨none, none, none, none⟩ (some 0) =
      .ok ⟨some 0, none, none, none⟩ :=
    (setA_ok_iff _ _ _).mpr ⟨(none, none), rfl, rfl⟩
  have h2 : PyComplex.setB ⟨some 0, none, none, none⟩ (some 0) =
      .error .zeroDivisionError :=
    setB_eq_error _ _ _ r_theta_from_ab_zero
  simp only [Bind.bind, Except.bind, h1, h2]

/-- C7 fails as stated: the zero complex `Complex(r=0, theta=0)` is a
reachable instance, yet `z ** 5` raises `ZeroDivisionError` (the operator's
internal `Complex(self)` copy re-derives the polar pair from `(0, 0)`) —
no new Complex with modulus `0 ** 5` is returned. -/
theorem claim_C7_counterexample :
    mkPolar 0 0 = .ok ⟨some 0, some 0, some 0, some 0⟩ ∧
    PyComplex.powC ⟨some 0, some 0, some 0, some 0⟩ (.scalar 5) = .exn .zeroDivisionError := by
  refine ⟨mkPolar_zero, ?_⟩
  unfold PyComplex.powC
  rw [mkCopy_zero]

/-- C7 (amended): for an instance whose Cartesian pair is not `(0, 0)` (so
the internal copy succeeds) and whose `r ** n` is defined, `z ** n` returns
a new value with modulus `r ** n` and angle `theta · n` (Cartesian pair
refreshed from them); a `Complex` or textual exponent yields the
`NotImplemented` sentinel, a signal distinct from every raised error. -/
theorem claim_C7_pow (za zb zr zθ n rn : ℝ) (w : PyComplex) (s : String)
    (h0 : ¬(za = 0 ∧ zb = 0)) (hpow : pyPowOp (some zr) n = .ok rn) :
    PyComplex.powC ⟨some za, some zb, some zr, some zθ⟩ (.scalar n) =
      .val ⟨(ab_from_r_theta (some rn) (some (zθ * n))).1,
            (ab_from_r_theta (some rn) (some (zθ * n))).2, some rn, some (zθ * n)⟩ ∧
    PyComplex.powC ⟨some za, some zb, some zr, some zθ⟩ (.cpx w) = .notImplemented ∧
    PyComplex.powC ⟨some za, some zb, some zr, some zθ⟩ (.strForm s) = .notImplemented ∧
    (∀ e, (ArithResult.notImplemented : ArithResult) ≠ .exn e) := by
  have hcopy : mkCopy ⟨some za, some zb, some zr, some zθ⟩ =
      .ok ⟨(ab_from_r_theta (some zr) (some zθ)).1,
           (ab_from_r_theta (some zr) (some zθ)).2, some zr, some zθ⟩ := by
    rw [ab_from_r_theta_some]
    exact mkCopy_eval za zb zr zθ _ _ _ (r_theta_from_ab_some za zb h0)
      (ab_from_r_theta_some zr zθ)
  refine ⟨?_, ?_, ?_, fun e => by simp⟩
  · unfold PyComplex.powC
    rw [hcopy]
    dsimp only [PyComplex.getR, PyComplex.getTheta]
    rw [hpow]
    dsimp only [pyBin]
    rw [setR_eq]
    dsimp only
    rw [setTheta_eq]
  · unfold PyComplex.powC
    rw [hcopy]
  · unfold PyComplex.powC
    rw [hcopy]

theorem rpow_three_five : (3 : ℝ) ^ (5 : ℝ) = 243 := by
  rw [show (5 : ℝ) = ((5 : ℕ) : ℝ) by norm_num, Real.rpow_natCast]
  norm_num

/-- C7 witness: `Complex(r=3, theta=0) ** 5` has modulus `243` and angle
`0`, and a `Complex` exponent yields `NotImplemented`. -/
theorem claim_C7_witness :
    PyComplex.powC ⟨some 3, some 0, some 3, some 0⟩ (.scalar 5) =
      .val ⟨(ab_from_r_theta (some 243) (some (0 * 5))).1,
            (ab_from_r_theta (some 243) (some (0 * 5))).2, some 243, some (0 * 5)⟩ ∧
    PyComplex.powC ⟨some 3, some 0, some 3, some 0⟩
      (.cpx ⟨none, none, none, none⟩) = .notImplemented := by
  have hpow : pyPowOp (some 3) 5 = .ok 243 := by
    unfold pyPowOp
    dsimp only
    rw [if_neg (by norm_num), rpow_three_five]
  have h := claim_C7_pow 3 0 3 0 5 243 ⟨none, none, none, none⟩ "s" (by norm_num) hpow
  exact ⟨h.1, h.2.1⟩

/-!
## Claim C8 -/

theorem pyFloat_ok (s : String) (q : ℚ) (x : ℝ) (hq : pyFloatQ s = .ok q)
    (hx : (q : ℝ) = x) : pyFloat s = .ok x := by
  unfold pyFloat
  rw [hq]
  dsimp only
  rw [hx]

theorem pyFloat_error (s : String) (e : PyErr) (h : pyFloatQ s = .error e) :
    pyFloat s = .error e := by
  unfold pyFloat
  rw [h]

/-- C8: of the two documented exponential text forms only `"5e^0.927i"`
parses (to `r = 5`, `theta = 0.927`); `"5exp0.927i"` fails, because the
constructor strips every `"x"` before testing for `"exp"`, leaving
`"5ep0.927"` for `float()`, which raises `ValueError`. -/
theorem claim_C8_string_exponential :
    mkString "5e^0.927i" =
      .ok ⟨(ab_from_r_theta (some 5) (some 0.927)).1,
           (ab_from_r_theta (some 5) (some 0.927)).2, some 5, some 0.927⟩ ∧
    mkString "5exp0.927i" =
      .error (.valueError "could not convert string to float: 5ep0.927") := by
  constructor
  · unfold mkString complexInit
    dsimp only
    rw [if_neg (by simp)]
    rw [if_pos (by decide)]
    unfold PyComplex.guessReprFromString
    rw [show strReplace (strReplace (strReplace (strReplace
      (strReplace "5e^0.927i" "(" "") ")" "") "*" "") "x" "") " " "" = "5e^0.927i" from by decide]
    rw [if_pos (by decide)]
    rw [show strReplace "5e^0.927i" "i" "" = "5e^0.927" from by decide]
    rw [if_pos (by decide)]
    rw [show (strSplitOn "5e^0.927" "e^").getD 0 "" = "5" from by decide]
    rw [show (strSplitOn "5e^0.927" "e^").getD 1 "" = "0.927" from by decide]
    rw [pyFloat_ok "5" (mkRat 5 1) 5 (by decide)
      (by rw [Rat.mkRat_eq_div]; push_cast; norm_num)]
    rw [pyFloat_ok "0.927" (mkRat 927 1000) 0.927 (by decide)
      (by rw [Rat.mkRat_eq_div]; push_cast; norm_num)]
    simp only [Bind.bind, Except.bind, pure, Except.pure]
    rw [setR_eq, setTheta_eq]
  · unfold mkString complexInit
    dsimp only
    rw [if_neg (by simp)]
    rw [if_pos (by decide)]
    unfold PyComplex.guessReprFromString
    rw [show strReplace (strReplace (strReplace (strReplace
      (strReplace "5exp0.927i" "(" "") ")" "") "*" "") "x" "") " " "" = "5ep0.927i" from by decide]
    rw [if_neg (by decide), if_neg (by decide), if_pos (by decide), if_pos (by decide)]
    have h1 : PyComplex.setA ⟨none, none, none, none⟩ (some 0) =
        .ok ⟨some 0, none, none, none⟩ :=
      (setA_ok_iff _ _ _).mpr ⟨(none, none), rfl, rfl⟩
    rw [show strReplace "5ep0.927i" "i" "" = "5ep0.927" from by decide]
    rw [pyFloat_error "5ep0.927" (.valueError "could not convert string to float: 5ep0.927")
      (by decide)]
    simp only [Bind.bind, Except.bind, h1]

/-!
## `htmlmerger.py` — the merge pipeline

Strings that the source joins with `"\n"` (the growing `header`, `tail` and
per-file `contents` values, and the output file) are modelled in the line
domain as `List String`: the source itself starts from
`read_text().splitlines()` and only ever concatenates whole lines with
`"\n"`, so a `"\n"`-join is list concatenation here.  The `contents` dict
(Python ≥ 3.7: first-insertion order, updated in place) is an ordered
association list keyed, as in the source, by the file's name.  The
filesystem is an association list from names to line lists; `unlink`
removes an entry, writing replaces or appends one. -/

def strStartsWith (s pre : String) : Bool :=
  decide (List.take pre.length s.toList = pre.toList)

def isHeaderLine (l : String) : Bool :=
  strStartsWith l "<html>" || strStartsWith l "<body>" || strStartsWith l "<head>"

def isTailLine (l : String) : Bool :=
  strStartsWith l "</body>" || strStartsWith l "</html>"

/-- A line the `elif` chain routes into `contents`. -/
def nonTag (l : String) : Bool := !isHeaderLine l && !isTailLine l

/-- A line the `elif` chain routes into `tail` (not an opening tag, and a
closing tag). -/
def tailOnly (l : String) : Bool := !isHeaderLine l && isTailLine l

structure MergerState : Type where
  header : List String
  tail : List String
  contents : List (String × List String)
  deriving DecidableEq, Repr

/-- `self.contents[name] = line` / `"\n".join([contents[name], line])`. -/
def insertAppend (d : List (String × List String)) (k : String) (l : String) :
    List (String × List String) :=
  if d.any fun p => p.1 == k then
    d.map fun p => if p.1 == k then (p.1, p.2 ++ [l]) else p
  else d ++ [(k, [l])]

/-- One line of `HtmlMerger.get_contents`'s inner loop. -/
def processLine (first : Bool) (name : String) (st : MergerState) (line : String) :
    MergerState :=
  if isHeaderLine line then
    if first then { st with header := st.header ++ [line] } else st
  else if isTailLine line then
    if first then { st with tail := st.tail ++ [line] } else st
  else
    { st with contents := insertAppend st.contents name line }

/-- One file of `HtmlMerger.get_contents`'s outer loop (`first` is cleared
after every file, so it is set only during the first one). -/
def processFile (st : MergerState × Bool) (f : String × List String) :
    MergerState × Bool :=
  (f.2.foldl (processLine st.2 f.1) st.1, false)

/-- `HtmlMerger.get_contents`. -/
def get_contents (files : List (String × List String)) : MergerState :=
  (files.foldl processFile (⟨[], [], []⟩, true)).1

/-- The output `HtmlMerger.merge` writes, in the line domain: the header
block, each `contents` entry in dict order, the tail.  `merge` writes
`f"{self.header}\n"` unconditionally, so an empty header string still
contributes one blank line; `f"{self.tail}"` has no newline of its own, so
an empty tail contributes nothing. -/
def mergeLines (files : List (String × List String)) : List String :=
  let st := get_contents files
  (if st.header = [] then [""] else st.header)
    ++ (st.contents.map Prod.snd).flatten ++ st.tail

abbrev FS : Type := List (String × List String)

def fsRead (fs : FS) (n : String) : Option (List String) := fs.lookup n

def fsWrite (fs : FS) (n : String) (content : List String) : FS :=
  (n, content) :: fs.filter fun p => !(p.1 == n)

/-- `file.unlink()` guarded by `file.is_file()`. -/
def fsDelete (fs : FS) (n : String) : FS := fs.filter fun p => !(p.1 == n)

/-- `HtmlMerger.merge(clean=...)` over the filesystem: `check_args` drops
the output path from the input list, `get_contents` reads every input
(`read_text` fails if one is missing), the output is written, and with
`clean` set every input file is deleted afterwards. -/
def mergeRun (fs : FS) (fileNames : List String) (outputPath : String) (clean : Bool) :
    Except PyErr FS :=
  let names := fileNames.filter fun n => !(n == outputPath)
  match names.mapM (fun n => (fsRead fs n).map fun ls => (n, ls)) with
  | none => .error (.valueError "FileNotFoundError")
  | some files =>
    let fs1 := fsWrite fs outputPath (mergeLines files)
    if clean then .ok (names.foldl fsDelete fs1) else .ok fs1

/-!
## Merge pipeline lemmas -/

theorem foldl_processLine_eq (first : Bool) (name : String) (lines : List String)
    (st : MergerState) :
    lines.foldl (processLine first name) st =
      ⟨st.header ++ (if first then lines.filter isHeaderLine else []),
       st.tail ++ (if first then lines.filter tailOnly else []),
       (lines.filter nonTag).foldl (fun d l => insertAppend d name l) st.contents⟩ := by
  induction lines generalizing st with
  | nil => cases first <;> simp
  | cons l ls ih =>
    rw [List.foldl_cons, ih]
    by_cases h1 : isHeaderLine l = true
    · have h2 : nonTag l = false := by simp [nonTag, h1]
      have h3 : tailOnly l = false := by simp [tailOnly, h1]
      cases first <;> simp [processLine, h1, h2, h3]
    · by_cases h2 : isTailLine l = true
      · have h3 : nonTag l = false := by simp [nonTag, h2]
        have h4 : tailOnly l = true := by simp [tailOnly, h1, h2]
        cases first <;> simp [processLine, h1, h2, h3, h4]
      · have h3 : nonTag l = true := by simp [nonTag, h1, h2]
        have h4 : tailOnly l = false := by simp [tailOnly, h2]
        cases first <;> simp [processLine, h1, h2, h3, h4]

theorem insertAppend_fresh (d : List (String × List String)) (k : String) (l : String)
    (hk : ∀ p ∈ d, ¬ p.1 = k) : insertAppend d k l = d ++ [(k, [l])] := by
  rw [insertAppend, if_neg]
  simp only [List.any_eq_true, beq_iff_eq, not_exists, not_and]
  exact fun p hp => hk p hp

theorem insertAppend_last (d : List (String × List String)) (k : String) (acc : List String)
    (l : String) (hk : ∀ p ∈ d, ¬ p.1 = k) :
    insertAppend (d ++ [(k, acc)]) k l = d ++ [(k, acc ++ [l])] := by
  rw [insertAppend, if_pos]
  · rw [List.map_append]
    have hmap : d.map (fun p => if p.1 == k then (p.1, p.2 ++ [l]) else p) = d := by
      rw [List.map_congr_left fun p hp => if_neg (by simp [hk p hp]), List.map_id']
    rw [hmap]
    simp
  · simp [List.any_eq_true]

theorem foldl_insertAppend_acc (d : List (String × List String)) (k : String)
    (acc lines : List String) (hk : ∀ p ∈ d, ¬ p.1 = k) :
    lines.foldl (fun d' l => insertAppend d' k l) (d ++ [(k, acc)]) =
      d ++ [(k, acc ++ lines)] := by
  induction lines generalizing acc with
  | nil => simp
  | cons l ls ih =>
    rw [List.foldl_cons, insertAppend_last d k acc l hk, ih]
    simp

/-- A file's contribution to the `contents` dict. -/
def fileEntry (f : String × List String) : List (String × List String) :=
  if (f.2.filter nonTag).isEmpty then [] else [(f.1, f.2.filter nonTag)]

theorem foldl_insertAppend_fresh (d : List (String × List String)) (k : String)
    (lines : List String) (hk : ∀ p ∈ d, ¬ p.1 = k) :
    lines.foldl (fun d' l => insertAppend d' k l) d =
      d ++ (if lines.isEmpty then [] else [(k, lines)]) := by
  cases lines with
  | nil => simp
  | cons l ls =>
    rw [List.foldl_cons, insertAppend_fresh d k l hk, foldl_insertAppend_acc d k [l] ls hk]
    simp

theorem foldl_processFile_rest (rest : List (String × List String)) (st : MergerState)
    (h : ∀ f ∈ rest, ∀ p ∈ st.contents, ¬ p.1 = f.1)
    (hnodup : (rest.map Prod.fst).Nodup) :
    (rest.foldl processFile (st, false)).1 =
      ⟨st.header, st.tail, st.contents ++ rest.flatMap fileEntry⟩ := by
  induction rest generalizing st with
  | nil => simp
  | cons f rest' ih =>
    rw [List.foldl_cons]
    have hstep : processFile (st, false) f =
        (⟨st.header, st.tail, st.contents ++ fileEntry f⟩, false) := by
      unfold processFile
      rw [foldl_processLine_eq]
      simp only [if_neg (Bool.false_ne_true), List.append_nil]
      rw [foldl_insertAppend_fresh st.contents f.1 (f.2.filter nonTag)
        (fun p hp => h f (List.mem_cons_self f rest') p hp)]
      rw [fileEntry]
    rw [hstep]
    rw [List.map_cons, List.nodup_cons] at hnodup
    rw [ih _ ?_ hnodup.2]
    · simp
    · intro g hg p hp
      rcases List.mem_append.mp hp with hp1 | hp2
      · exact h g (List.mem_cons_of_mem f hg) p hp1
      · have hpf : p.1 = f.1 := by
          rw [fileEntry] at hp2
          split at hp2
          · simp at hp2
          · rcases List.mem_singleton.mp hp2 with rfl
            rfl
        rw [hpf]
        intro hfg
        exact hnodup.1 (hfg ▸ List.mem_map_of_mem Prod.fst hg)

theorem flatten_fileEntry (files : List (String × List String)) :
    ((files.flatMap fileEntry).map Prod.snd).flatten =
      (files.map fun f => f.2.filter nonTag).flatten := by
  induction files with
  | nil => rfl
  | cons f rest ih =>
    rw [List.flatMap_cons, List.map_append, List.flatten_append, ih, List.map_cons,
      List.flatten_cons]
    congr 1
    rw [fileEntry]
    split
    · rename_i he
      rw [List.isEmpty_iff.mp he]
      rfl
    · simp

/-- The merged output for pairwise distinct file names: the first file's
opening-tag lines (one blank line when it has none), every file's non-tag
lines grouped per file in input order, the first file's closing-tag
lines. -/
theorem mergeLines_eq (f0 : String × List String) (rest : List (String × List String))
    (hnodup : ((f0 :: rest).map Prod.fst).Nodup) :
    mergeLines (f0 :: rest) =
      (if f0.2.filter isHeaderLine = [] then [""] else f0.2.filter isHeaderLine)
      ++ ((f0 :: rest).map fun f => f.2.filter nonTag).flatten
      ++ f0.2.filter tailOnly := by
  unfold mergeLines get_contents
  rw [List.foldl_cons]
  have hstep : processFile (⟨[], [], []⟩, true) f0 =
      (⟨f0.2.filter isHeaderLine, f0.2.filter tailOnly, fileEntry f0⟩, false) := by
    unfold processFile
    rw [foldl_processLine_eq]
    simp only [if_pos rfl, List.nil_append]
    rw [foldl_insertAppend_fresh [] f0.1 (f0.2.filter nonTag) (by simp)]
    rw [fileEntry]
    simp
  rw [hstep]
  rw [List.map_cons, List.nodup_cons] at hnodup
  rw [foldl_processFile_rest rest _ ?_ hnodup.2]
  · dsimp only
    rw [List.map_append, List.flatten_append, flatten_fileEntry]
    have hf0 : ((fileEntry f0).map Prod.snd).flatten = f0.2.filter nonTag := by
      rw [fileEntry]
      split
      · rename_i he
        rw [List.isEmpty_iff.mp he]
        rfl
      · simp
    rw [hf0, List.map_cons, List.flatten_cons, List.append_assoc]
  · intro g hg p hp
    have hpf : p.1 = f0.1 := by
      rw [fileEntry] at hp
      split at hp
      · simp at hp
      · rcases List.mem_singleton.mp hp with rfl
        rfl
    rw [hpf]
    intro hfg
    exact hnodup.1 (hfg ▸ List.mem_map_of_mem Prod.fst hg)

/-!
## Filesystem lemmas and claim C9 -/

theorem lookup_cons_pair (k : String) (c : List String) (fs : FS) (n : String) :
    ((k, c) :: fs).lookup n = if n = k then some c else fs.lookup n := by
  rw [List.lookup_cons]
  by_cases h : n = k
  · rw [if_pos h, show (n == k) = true from beq_iff_eq.mpr h]
  · rw [if_neg h, show (n == k) = false from beq_eq_false_iff_ne.mpr h]

theorem fsWrite_lookup_self (fs : FS) (n : String) (c : List String) :
    (fsWrite fs n c).lookup n = some c := by
  rw [fsWrite, lookup_cons_pair, if_pos rfl]

theorem fsDelete_lookup_self (fs : FS) (n : String) :
    (fsDelete fs n).lookup n = none := by
  induction fs with
  | nil => rfl
  | cons p fs' ih =>
    obtain ⟨k, c⟩ := p
    rw [fsDelete, List.filter_cons]
    by_cases h : k = n
    · rw [if_neg (by simp [h])]
      exact ih
    · rw [if_pos (by simp [h])]
      rw [lookup_cons_pair, if_neg (fun he => h he.symm)]
      exact ih

theorem fsDelete_lookup_ne (fs : FS) (m n : String) (h : ¬ n = m) :
    (fsDelete fs m).lookup n = fs.lookup n := by
  induction fs with
  | nil => rfl
  | cons p fs' ih =>
    obtain ⟨k, c⟩ := p
    rw [fsDelete, List.filter_cons]
    by_cases hk : k = m
    · rw [if_neg (by simp [hk]), lookup_cons_pair,
        if_neg (fun he => h (he.trans hk))]
      exact ih
    · rw [if_pos (by simp [hk]), lookup_cons_pair, lookup_cons_pair]
      by_cases hnk : n = k
      · rw [if_pos hnk, if_pos hnk]
      · rw [if_neg hnk, if_neg hnk]
        exact ih

theorem foldl_fsDelete_none (names : List String) (fs : FS) (n : String)
    (h : fs.lookup n = none) : (names.foldl fsDelete fs).lookup n = none := by
  induction names generalizing fs with
  | nil => exact h
  | cons m ms ih =>
    rw [List.foldl_cons]
    apply ih
    by_cases hnm : n = m
    · subst hnm
      exact fsDelete_lookup_self fs n
    · rw [fsDelete_lookup_ne fs m n hnm]
      exact h

theorem foldl_fsDelete_mem (names : List String) (fs : FS) (n : String)
    (h : n ∈ names) : (names.foldl fsDelete fs).lookup n = none := by
  induction names generalizing fs with
  | nil => cases h
  | cons m ms ih =>
    rw [List.foldl_cons]
    rcases List.mem_cons.mp h with rfl | hms
    · exact foldl_fsDelete_none ms _ n (fsDelete_lookup_self fs n)
    · exact ih _ hms

theorem foldl_fsDelete_not_mem (names : List String) (fs : FS) (n : String)
    (h : ¬ n ∈ names) : (names.foldl fsDelete fs).lookup n = fs.lookup n := by
  induction names generalizing fs with
  | nil => rfl
  | cons m ms ih =>
    rw [List.foldl_cons]
    rw [ih _ (fun hm => h (List.mem_cons_of_mem m hm))]
    exact fsDelete_lookup_ne fs m n (fun he => h (he ▸ List.mem_cons_self m ms))

/-- C9 (amended): for input files with pairwise distinct names (the
`contents` dict is keyed by `file.name`, so duplicate basenames would merge
groups), the merged output consists of the first file's opening-tag lines
once (a single blank line when it has none, from the unconditional
`f"{self.header}\n"` write), every file's other lines grouped per file in
input order, and the first file's closing-tag lines once (later files' tag
lines are dropped); and a `clean=True` run writes that output and then
deletes every input file. -/
theorem claim_C9_merge
    (f0 : String × List String) (rest : List (String × List String))
    (hnodup : ((f0 :: rest).map Prod.fst).Nodup)
    (fs : FS) (fileNames : List String) (outputPath : String) (fs' : FS)
    (hrun : mergeRun fs fileNames outputPath true = .ok fs') :
    mergeLines (f0 :: rest) =
      (if f0.2.filter isHeaderLine = [] then [""] else f0.2.filter isHeaderLine)
      ++ ((f0 :: rest).map fun f => f.2.filter nonTag).flatten
      ++ f0.2.filter tailOnly
    ∧ (∃ files, (fileNames.filter fun n => !(n == outputPath)).mapM
        (fun n => (fsRead fs n).map fun ls => (n, ls)) = some files ∧
        fs'.lookup outputPath = some (mergeLines files))
    ∧ (∀ n, n ∈ fileNames → ¬ n = outputPath → fs'.lookup n = none) := by
  refine ⟨mergeLines_eq f0 rest hnodup, ?_, ?_⟩
  · unfold mergeRun at hrun
    dsimp only at hrun
    rcases hread : (fileNames.filter fun n => !(n == outputPath)).mapM
        (fun n => (fsRead fs n).map fun ls => (n, ls)) with - | files
    · rw [hread] at hrun
      exact absurd hrun (by simp)
    · rw [hread] at hrun
      simp only [eq_self_iff_true, if_true, Except.ok.injEq] at hrun
      refine ⟨files, rfl, ?_⟩
      rw [← hrun]
      rw [foldl_fsDelete_not_mem _ _ _ ?_]
      · exact fsWrite_lookup_self fs outputPath (mergeLines files)
      · intro hmem
        rcases List.mem_filter.mp hmem with ⟨-, hne⟩
        simp at hne
  · intro n hn hne
    unfold mergeRun at hrun
    dsimp only at hrun
    rcases hread : (fileNames.filter fun n => !(n == outputPath)).mapM
        (fun n => (fsRead fs n).map fun ls => (n, ls)) with - | files
    · rw [hread] at hrun
      exact absurd hrun (by simp)
    · rw [hread] at hrun
      simp only [eq_self_iff_true, if_true, Except.ok.injEq] at hrun
      rw [← hrun]
      apply foldl_fsDelete_mem
      rw [List.mem_filter]
      exact ⟨hn, by simpa using hne⟩

/-- C9 fails as stated: the contents dict is keyed by `file.name`, so with
duplicate basenames (an input list such as `[dir1/a.html, b.html,
dir2/a.html]`) the third file's body lines are appended to the first
file's group — `body1, body3, body2` instead of the claimed per-source
input order `body1, body2, body3`; and when the first file has no
opening-tag line at all, the output starts with a blank line rather than
going straight to the body lines. -/
theorem claim_C9_counterexample :
    mergeLines [("a.html", ["<html>", "<body>", "body1", "</body>", "</html>"]),
                ("b.html", ["<html>", "<body>", "body2", "</body>", "</html>"]),
                ("a.html", ["<html>", "<body>", "body3", "</body>", "</html>"])] =
      ["<html>", "<body>", "body1", "body3", "body2", "</body>", "</html>"] ∧
    ¬ mergeLines [("a.html", ["<html>", "<body>", "body1", "</body>", "</html>"]),
                  ("b.html", ["<html>", "<body>", "body2", "</body>", "</html>"]),
                  ("a.html", ["<html>", "<body>", "body3", "</body>", "</html>"])] =
      ["<html>", "<body>", "body1", "body2", "body3", "</body>", "</html>"] ∧
    mergeLines [("c.html", ["content"])] = ["", "content"] := by
  refine ⟨by decide, by decide, by decide⟩

/-- C9 witness: the spec's two-file scenario, run with `clean=True`. -/
theorem claim_C9_witness :
    mergeLines [("f1.html", ["<html>", "<body>", "content1", "</body>", "</html>"]),
                ("f2.html", ["<html>", "<body>", "content2", "</body>", "</html>"])] =
      ["<html>", "<body>", "content1", "content2", "</body>", "</html>"] ∧
    (∀ n, n ∈ ["f1.html", "f2.html"] → ¬ n = "merged.html" →
      ([("merged.html", ["<html>", "<body>", "content1", "content2", "</body>", "</html>"])]
        : FS).lookup n = none) ∧
    ([("merged.html", ["<html>", "<body>", "content1", "content2", "</body>", "</html>"])]
        : FS).lookup "merged.html" =
      some ["<html>", "<body>", "content1", "content2", "</body>", "</html>"] := by
  have hrun : mergeRun
      [("f1.html", ["<html>", "<body>", "content1", "</body>", "</html>"]),
       ("f2.html", ["<html>", "<body>", "content2", "</body>", "</html>"])]
      ["f1.html", "f2.html"] "merged.html" true =
      .ok [("merged.html",
        ["<html>", "<body>", "content1", "content2", "</body>", "</html>"])] := by decide
  have h := claim_C9_merge
    ("f1.html", ["<html>", "<body>", "content1", "</body>", "</html>"])
    [("f2.html", ["<html>", "<body>", "content2", "</body>", "</html>"])]
    (by decide)
    [("f1.html", ["<html>", "<body>", "content1", "</body>", "</html>"]),
     ("f2.html", ["<html>", "<body>", "content2", "</body>", "</html>"])]
    ["f1.html", "f2.html"] "merged.html" _ hrun
  exact ⟨h.1.trans (by decide), h.2.2, by decide⟩

/-- C10: `__pos__` returns the very same reference without touching the
heap, so mutating the result of `+z` (here through the `r` setter) mutates
the cell that `z` refers to; every binary operator (`heapBinOp`
instantiates to `__add__`, `__sub__`, `__mul__`, `__truediv__`) and
`__pow__` instead return a fresh reference distinct from `z`, leave the
cell `z` refers to unchanged, and grow the heap by one cell. -/
theorem claim_C10_pos_aliasing (h : Heap) (r : ℕ) (v : ℝ) (hr : r < h.length) :
    heapPos h r = (h, r)
    ∧ heapGet (heapSetR (heapPos h r).1 (heapPos h r).2 (some v)) r
        = (heapGet h r).setR (some v)
    ∧ (∀ f o h' r', heapBinOp f h r o = .ok (h', r') →
        ¬ r' = r ∧ heapGet h' r = heapGet h r ∧ h'.length = h.length + 1)
    ∧ (∀ o h' r', heapPow h r o = some (h', r') →
        ¬ r' = r ∧ heapGet h' r = heapGet h r ∧ h'.length = h.length + 1) := by
  refine ⟨rfl, ?_, ?_, ?_⟩
  · show heapGet (heapSetR h r (some v)) r = (heapGet h r).setR (some v)
    simp only [heapSetR, heapGet, List.getD_eq_getElem?_getD,
      List.getElem?_set_self hr, Option.getD_some]
  · intro f o h' r' hop
    unfold heapBinOp at hop
    rcases hf : f (heapGet h r) o with e | z
    · rw [hf] at hop
      exact absurd hop (by simp)
    · rw [hf] at hop
      simp only [heapAlloc, Except.ok.injEq, Prod.mk.injEq] at hop
      obtain ⟨rfl, rfl⟩ := hop
      refine ⟨by omega, ?_, by simp⟩
      simp only [heapGet, List.getD_eq_getElem?_getD, List.getElem?_append_left hr]
  · intro o h' r' hop
    unfold heapPow at hop
    rcases hf : (heapGet h r).powC o with z | - | e
    · rw [hf] at hop
      simp only [heapAlloc, Option.some.injEq, Prod.mk.injEq] at hop
      obtain ⟨rfl, rfl⟩ := hop
      refine ⟨by omega, ?_, by simp⟩
      simp only [heapGet, List.getD_eq_getElem?_getD, List.getElem?_append_left hr]
    · rw [hf] at hop
      exact absurd hop (by simp)
    · rw [hf] at hop
      exact absurd hop (by simp)

/-- C10 witness: a one-cell heap holding the instance `Complex(1, 0)`;
unary plus on reference `0` aliases it. -/
theorem claim_C10_witness :
    heapPos [(⟨some 1, some 0, some 1, some 0⟩ : PyComplex)] 0
        = ([(⟨some 1, some 0, some 1, some 0⟩ : PyComplex)], 0)
    ∧ heapGet (heapSetR (heapPos [(⟨some 1, some 0, some 1, some 0⟩ : PyComplex)] 0).1
          (heapPos [(⟨some 1, some 0, some 1, some 0⟩ : PyComplex)] 0).2 (some 5)) 0
        = (heapGet [(⟨some 1, some 0, some 1, some 0⟩ : PyComplex)] 0).setR (some 5)
    ∧ (∀ f o h' r',
        heapBinOp f [(⟨some 1, some 0, some 1, some 0⟩ : PyComplex)] 0 o = .ok (h', r') →
        ¬ r' = 0
        ∧ heapGet h' 0 = heapGet [(⟨some 1, some 0, some 1, some 0⟩ : PyComplex)] 0
        ∧ h'.length = [(⟨some 1, some 0, some 1, some 0⟩ : PyComplex)].length + 1)
    ∧ (∀ o h' r',
        heapPow [(⟨some 1, some 0, some 1, some 0⟩ : PyComplex)] 0 o = some (h', r') →
        ¬ r' = 0
        ∧ heapGet h' 0 = heapGet [(⟨some 1, some 0, some 1, some 0⟩ : PyComplex)] 0
        ∧ h'.length = [(⟨some 1, some 0, some 1, some 0⟩ : PyComplex)].length + 1) :=
  claim_C10_pos_aliasing [(⟨some 1, some 0, some 1, some 0⟩ : PyComplex)] 0 5 (by simp)
